import Mathlib

/-!
# CAPE plane segmentation (`src/project/src/cape.cpp`)

Shallow embedding of `CAPE::growSeed` and `CAPE::createPlaneSegments`.

* Cell ids, grid coordinates and grid dimensions are `int32_t` in the source and
  `ℤ` here (the arithmetic of the source stays far below the 32-bit range on
  every grid that fits a bitset, so wrap-around is not modelled).  The
  constructor multiplies the two dimensions before any bitset is involved: there
  a value outside the 32-bit range is a fault.
* The two integer options compared with container sizes are signed; the
  comparison is made after their conversion to `size_t`.
* The label matrix is a function of row and column; a write through a row
  pointer lands where it would in the one buffer of the matrix.
* `std::bitset<BITSET_SIZE>` is a finite set of positions, `Finset ℤ`; the size
  `BITSET_SIZE` enters where the source iterates over a bitset or counts its bits.
* `double`/`float` values are elements of a linearly ordered commutative ring
  `F` (rounding and NaN are not modelled); the theorems hold for every such `F`.
* `PlaneSeg`, `Histogram` and `config::Config` are declared outside the two
  source files: their operations are parameters of the embedding.
* `std::shared_ptr<PlaneSeg>` values are pointers into `_cell_grid`; a pointer
  is represented by the id of the cell it points to.
-/

namespace cape

set_option linter.unusedSectionVars false

/-! ## Data model -/

/-- Three-component vector (`Eigen::Vector3d`). -/
structure Vec3 (F : Type) where
  x : F
  y : F
  z : F

/-- Dot product of two vectors (`Eigen::Vector3d::dot`). -/
def Vec3.dot {F : Type} [LinearOrderedCommRing F] (a b : Vec3 F) : F :=
  a.x * b.x + a.y * b.y + a.z * b.z

/-- The member functions of `PlaneSeg` used by `cape.cpp`.  The class is declared
outside the sources, so its operations are parameters.  `mergeWith a b` is the
value the left operand holds after `a += b`. -/
structure PlaneSegOps (F M : Type) where
  getNormal : M → Vec3 F
  getD : M → F
  getMean : M → Vec3 F
  getMSE : M → F
  getScore : M → F
  mergeWith : M → M → M
  calculateStats : M → M

/-- The member functions of `Histogram` used by `createPlaneSegments`; the class
is declared outside the sources, so its operations are parameters. -/
structure HistogramOps (H : Type) where
  getPointsFromMostFrequentBin : H → List ℤ
  removePoint : H → ℤ → H

/-- The configuration options read by `growSeed` and `createPlaneSegments`.  The
two integer options are values of `getInt`, signed integers. -/
structure Config (F : Type) where
  minCosAngleForMerge : F
  minRegionGrowingCandidateSize : ℤ
  minRegionGrowingCellsActivated : ℤ
  minRegionPlanarityScore : F

/-- The value with which a signed integer option enters a comparison with a
`size_t` (lines 98 and 127): the usual arithmetic conversions turn the `int`
operand into a 64-bit `size_t`, so a non-negative option keeps its value and a
negative option `z` becomes `z + 2 ^ 64 = z + 18446744073709551616`. -/
def toSizeT (z : ℤ) : ℕ :=
  if z < 0 then (z + 18446744073709551616).toNat else z.toNat

/-- The immutable members of a `CAPE` engine; `BITSET_SIZE` is the compile-time
size of every `std::bitset` of the class. -/
structure CAPE (F : Type) where
  config : Config F
  nr_horizontal_cells : ℤ
  nr_vertical_cells : ℤ
  BITSET_SIZE : ℕ

/-- Member `_nr_total_cells`, initialised to
`_nr_horizontal_cells * _nr_vertical_cells` by the constructor. -/
def CAPE.nr_total_cells {F : Type} (e : CAPE F) : ℤ :=
  e.nr_horizontal_cells * e.nr_vertical_cells

/-- Ways in which a call does not return normally. -/
inductive Fault where
  /-- Exception `std::out_of_range` thrown by `growSeed`. -/
  | out_of_range
  /-- A bitset is read at a negative position (undefined behaviour). -/
  | negative_index
  /-- Variable `seed_id` is read although no candidate was ever assigned to it. -/
  | uninitialized_seed
  /-- The bounded unfolding of a loop or recursion was not long enough. -/
  | fuel
deriving DecidableEq, Repr

/-- Equality of outcomes is decidable. -/
instance instDecidableEqOutcome {α : Type} [DecidableEq α] : DecidableEq (Except Fault α) :=
  fun a b =>
    match a, b with
    | .ok v, .ok w => if h : v = w then isTrue (by rw [h]) else isFalse (by
        intro hc; cases hc; exact h rfl)
    | .error f, .error g => if h : f = g then isTrue (by rw [h]) else isFalse (by
        intro hc; cases hc; exact h rfl)
    | .ok _, .error _ => isFalse (by intro hc; cases hc)
    | .error _, .ok _ => isFalse (by intro hc; cases hc)

/-- Sentinel `INT_MAX` of a 32-bit `int`. -/
def INT_MAX : ℕ := 2147483647

/-! ## `CAPE::growSeed` -/

section growSeed

variable {F M : Type} [LinearOrderedCommRing F]

/-- Lines 165-173 of `growSeed`: `true` when the candidate `index` is rejected
against the cell `prev_index` that led to it. -/
def mergeRejected (e : CAPE F) (ops : PlaneSegOps F M) (cell_grid : ℤ → M)
    (cell_dist_tols : ℤ → F) (prev_index index : ℤ) : Bool :=
  let d_1 := ops.getD (cell_grid prev_index)
  let normal_1 := ops.getNormal (cell_grid prev_index)
  let normal_2 := ops.getNormal (cell_grid index)
  let mean_2 := ops.getMean (cell_grid index)
  let cos_angle := normal_1.dot normal_2
  let merge_dist := (normal_1.dot mean_2 + d_1) ^ 2
  decide (cos_angle < e.config.minCosAngleForMerge) ||
    decide (merge_dist > cell_dist_tols index)

/-- Function `CAPE::growSeed`, unfolded at most `fuel` calls deep.  The result is the
value of `*activation_map` when the call returns. -/
def growSeedFuel (e : CAPE F) (ops : PlaneSegOps F M) (cell_grid : ℤ → M)
    (unassigned : Finset ℤ) (cell_dist_tols : ℤ → F) :
    ℕ → ℤ → ℤ → ℤ → Finset ℤ → Except Fault (Finset ℤ)
  | 0, _, _, _, _ => .error .fuel
  | n + 1, x, y, prev_index, activation_map =>
    let index := x + e.nr_horizontal_cells * y
    if index ≥ e.nr_total_cells then .error .out_of_range
    else if index < 0 then .error .negative_index
    else if index ∉ unassigned ∨ index ∈ activation_map then .ok activation_map
    else if mergeRejected e ops cell_grid cell_dist_tols prev_index index then
      .ok activation_map
    else
      let a0 := insert index activation_map
      (if x > 0 then
          growSeedFuel e ops cell_grid unassigned cell_dist_tols n (x - 1) y index a0
        else .ok a0) >>= fun a1 =>
      (if x < e.nr_horizontal_cells - 1 then
          growSeedFuel e ops cell_grid unassigned cell_dist_tols n (x + 1) y index a1
        else .ok a1) >>= fun a2 =>
      (if y > 0 then
          growSeedFuel e ops cell_grid unassigned cell_dist_tols n x (y - 1) index a2
        else .ok a2) >>= fun a3 =>
      (if y < e.nr_vertical_cells - 1 then
          growSeedFuel e ops cell_grid unassigned cell_dist_tols n x (y + 1) index a3
        else .ok a3)

/-- Function `CAPE::growSeed`: every call that recurses first activates a cell of
`unassigned` that was not activated, so `unassigned.card + 1` nested calls are
enough (theorems `growSeedOrd_ne_fuel` and `growSeedOrd_fuel_le`). -/
def growSeed (e : CAPE F) (ops : PlaneSegOps F M) (cell_grid : ℤ → M)
    (x y prev_index : ℤ) (unassigned activation_map : Finset ℤ)
    (cell_dist_tols : ℤ → F) : Except Fault (Finset ℤ) :=
  growSeedFuel e ops cell_grid unassigned cell_dist_tols (unassigned.card + 1)
    x y prev_index activation_map

/-- The four neighbours `growSeed` recurses into. -/
inductive Dir where
  | left
  | right
  | up
  | down
deriving DecidableEq, Repr

/-- The bounds check in front of the recursive call for a direction
(lines 178, 180, 182, 184). -/
def Dir.inGrid (e : CAPE F) (d : Dir) (x y : ℤ) : Bool :=
  match d with
  | .left => decide (x > 0)
  | .right => decide (x < e.nr_horizontal_cells - 1)
  | .up => decide (y > 0)
  | .down => decide (y < e.nr_vertical_cells - 1)

/-- Column of the neighbour in a direction. -/
def Dir.nx (d : Dir) (x : ℤ) : ℤ :=
  match d with
  | .left => x - 1
  | .right => x + 1
  | .up => x
  | .down => x

/-- Row of the neighbour in a direction. -/
def Dir.ny (d : Dir) (y : ℤ) : ℤ :=
  match d with
  | .left => y
  | .right => y
  | .up => y - 1
  | .down => y + 1

/-- The order in which the source visits the neighbours. -/
def sourceOrder : List Dir := [.left, .right, .up, .down]

/-- The recursion of `growSeed` with the neighbours visited in the order `order`;
`growSeedFuel` is the instance `order = sourceOrder`
(theorem `growSeedFuel_eq_growSeedOrd`). -/
def growSeedOrd (order : List Dir) (e : CAPE F) (ops : PlaneSegOps F M) (cell_grid : ℤ → M)
    (unassigned : Finset ℤ) (cell_dist_tols : ℤ → F) :
    ℕ → ℤ → ℤ → ℤ → Finset ℤ → Except Fault (Finset ℤ)
  | 0, _, _, _, _ => .error .fuel
  | n + 1, x, y, prev_index, activation_map =>
    let index := x + e.nr_horizontal_cells * y
    if index ≥ e.nr_total_cells then .error .out_of_range
    else if index < 0 then .error .negative_index
    else if index ∉ unassigned ∨ index ∈ activation_map then .ok activation_map
    else if mergeRejected e ops cell_grid cell_dist_tols prev_index index then
      .ok activation_map
    else
      order.foldlM
        (fun am d =>
          if d.inGrid e x y then
            growSeedOrd order e ops cell_grid unassigned cell_dist_tols n (d.nx x) (d.ny y)
              index am
          else pure am)
        (insert index activation_map)

end growSeed

/-! ## `CAPE::createPlaneSegments` -/

section createPlaneSegments

variable {F M H : Type} [LinearOrderedCommRing F]

/-- The positions of the set bits of a bitset in increasing order: the values the
loop `for (i = b._Find_first(); i != b.size(); i = b._Find_next(i))` visits. -/
def setBits (size : ℕ) (b : Finset ℤ) : List ℤ :=
  ((List.range size).map Int.ofNat).filter (fun i => i ∈ b)

/-- Member `std::bitset::count`. -/
def bitCount (size : ℕ) (b : Finset ℤ) : ℕ := (setBits size b).length

/-- The variables of `createPlaneSegments` that live across iterations of its
`while` loop, together with the two engine members the loop writes
(`_cell_grid`, whose cells are mutated in place through the shared pointers, and
`_grid_plane_seg_map`).  An entry of `plane_segments` is the id of the cell the
stored pointer points to. -/
structure LoopState (M H : Type) where
  hist : H
  cell_grid : ℤ → M
  grid_plane_seg_map : ℤ → ℤ → ℤ
  plane_segments : List ℤ
  unassigned_mask : Finset ℤ
  remaining_planar_cells : ℤ

/-- What one growth pass did: its seed, the activation map `growSeed` returned,
and whether its segment was appended to `plane_segments`. -/
structure Pass where
  seed_id : ℤ
  activation_map : Finset ℤ
  accepted : Bool
deriving DecidableEq

/-- How one execution of the loop body ends: at the end of the body or at a
`continue` (`next`), or at the `return` of line 100 (`exit`). -/
inductive Flow (σ : Type) where
  | next (st : σ) (pass : Pass)
  | exit (st : σ)

/-- Lines 103-110: the scan for the candidate of minimum MSE.  The first
component is `seed_id` (`none` while it is uninitialised), the second `min_mse`. -/
def selectSeed (ops : PlaneSegOps F M) (cell_grid : ℤ → M) (seed_candidates : List ℤ) :
    Option ℤ × F :=
  seed_candidates.foldl
    (fun acc seed_candidate =>
      if ops.getMSE (cell_grid seed_candidate) < acc.2 then
        (some seed_candidate, ops.getMSE (cell_grid seed_candidate))
      else acc)
    (none, (INT_MAX : F))

/-- One iteration of the loop of lines 118-123 for the set bit `i`:
`new_segment` is the pointer `_cell_grid[seed_id]`, so `*new_segment += *_cell_grid[i]`
updates the cell `seed_id` of the grid in place. -/
def mergeCell (ops : PlaneSegOps F M) (hops : HistogramOps H) (seed_id : ℤ)
    (st : LoopState M H) (i : ℤ) : LoopState M H :=
  { st with
    cell_grid :=
      Function.update st.cell_grid seed_id (ops.mergeWith (st.cell_grid seed_id) (st.cell_grid i))
    hist := hops.removePoint st.hist i
    remaining_planar_cells := st.remaining_planar_cells - 1 }

/-- Lines 118-123: merge the activated cells and remove them from the histogram. -/
def mergeActivated (e : CAPE F) (ops : PlaneSegOps F M) (hops : HistogramOps H) (seed_id : ℤ)
    (activation_map : Finset ℤ) (st : LoopState M H) : LoopState M H :=
  (setBits e.BITSET_SIZE activation_map).foldl (mergeCell ops hops seed_id) st

/-- The row of the label matrix in which the write `row[col_id]` lands, `row`
being the pointer to the start of row `row_id`: the matrix is one buffer of rows
of `_nr_horizontal_cells` entries, so the write goes to the position
`row_id * _nr_horizontal_cells + col_id` of the buffer.  A position past the last
row lies outside the buffer (undefined behaviour in the source). -/
def writeRow (e : CAPE F) (row_id col_id : ℕ) : ℤ :=
  ((row_id : ℤ) * e.nr_horizontal_cells + (col_id : ℤ)) / e.nr_horizontal_cells

/-- The column of the label matrix in which the write `row[col_id]` lands. -/
def writeCol (e : CAPE F) (row_id col_id : ℕ) : ℤ :=
  ((row_id : ℤ) * e.nr_horizontal_cells + (col_id : ℤ)) % e.nr_horizontal_cells

/-- The body of the inner loop of lines 140-146 for the column `col_id` of the
row `row_id`; the state is the label map and the counter `stacked_cell_id`. -/
def markCell (e : CAPE F) (activation_map : Finset ℤ) (nr_curr_planes : ℤ) (row_id : ℕ)
    (acc : (ℤ → ℤ → ℤ) × ℤ) (col_id : ℕ) : (ℤ → ℤ → ℤ) × ℤ :=
  (if acc.2 ∈ activation_map then
      Function.update acc.1 (writeRow e row_id col_id)
        (Function.update (acc.1 (writeRow e row_id col_id)) (writeCol e row_id col_id)
          nr_curr_planes)
    else acc.1,
    acc.2 + 1)

/-- Lines 138-147: stamp the label `nr_curr_planes`.  The state of the two loops
is the label map and the counter `stacked_cell_id`; both loops run to
`_nr_vertical_cells`, as in the source. -/
def markCells (e : CAPE F) (activation_map : Finset ℤ) (nr_curr_planes : ℤ)
    (grid_plane_seg_map : ℤ → ℤ → ℤ) : ℤ → ℤ → ℤ :=
  ((List.range e.nr_vertical_cells.toNat).foldl
    (fun acc row_id =>
      (List.range e.nr_vertical_cells.toNat).foldl
        (markCell e activation_map nr_curr_planes row_id) acc)
    (grid_plane_seg_map, (0 : ℤ))).1

/-- The entry `(row, col)` of the label map is written by `markCells`: the loops
reach a pair `(row_id, col_id)`, both below `_nr_vertical_cells`, at which the
counter `stacked_cell_id = row_id * _nr_vertical_cells + col_id` is a set bit of
the activation map and whose write `row[col_id]` lands on the entry. -/
def stampedAt (e : CAPE F) (activation_map : Finset ℤ) (row col : ℤ) : Prop :=
  ∃ row_id col_id : ℕ, row_id < e.nr_vertical_cells.toNat ∧
    col_id < e.nr_vertical_cells.toNat ∧
    ((row_id * e.nr_vertical_cells.toNat + col_id : ℕ) : ℤ) ∈ activation_map ∧
    writeRow e row_id col_id = row ∧ writeCol e row_id col_id = col

/-- Lines 97-148: the body of the `while` loop of `createPlaneSegments`. -/
def loopBody (e : CAPE F) (ops : PlaneSegOps F M) (hops : HistogramOps H)
    (cell_dist_tols : ℤ → F) (st : LoopState M H) : Except Fault (Flow (LoopState M H)) :=
  let seed_candidates := hops.getPointsFromMostFrequentBin st.hist
  if seed_candidates.length < toSizeT e.config.minRegionGrowingCandidateSize then
    .ok (.exit st)
  else
    match (selectSeed ops st.cell_grid seed_candidates).1 with
    | none => .error .uninitialized_seed
    | some seed_id =>
      let y := seed_id.tdiv e.nr_horizontal_cells
      let x := seed_id.tmod e.nr_horizontal_cells
      match growSeed e ops st.cell_grid x y seed_id st.unassigned_mask ∅ cell_dist_tols with
      | .error f => .error f
      | .ok activation_map =>
        let st1 := mergeActivated e ops hops seed_id activation_map st
        let st2 := { st1 with unassigned_mask := st1.unassigned_mask \ activation_map }
        let nr_cells_activated := bitCount e.BITSET_SIZE activation_map
        if nr_cells_activated < toSizeT e.config.minRegionGrowingCellsActivated then
          .ok (.next st2 ⟨seed_id, activation_map, false⟩)
        else
          let st3 := { st2 with
            cell_grid :=
              Function.update st2.cell_grid seed_id (ops.calculateStats (st2.cell_grid seed_id)) }
          if ops.getScore (st3.cell_grid seed_id) > e.config.minRegionPlanarityScore then
            let plane_segments := st3.plane_segments ++ [seed_id]
            let nr_curr_planes : ℤ := plane_segments.length
            .ok (.next
              { st3 with
                plane_segments := plane_segments
                grid_plane_seg_map :=
                  markCells e activation_map nr_curr_planes st3.grid_plane_seg_map }
              ⟨seed_id, activation_map, true⟩)
          else
            .ok (.next st3 ⟨seed_id, activation_map, false⟩)

/-- Lines 91-93: the state in which the `while` loop is entered. -/
def initState (e : CAPE F) (cell_grid : ℤ → M) (grid_plane_seg_map : ℤ → ℤ → ℤ) (hist : H)
    (planar_flags : Finset ℤ) : LoopState M H :=
  { hist := hist
    cell_grid := cell_grid
    grid_plane_seg_map := grid_plane_seg_map
    plane_segments := []
    unassigned_mask := planar_flags
    remaining_planar_cells := bitCount e.BITSET_SIZE planar_flags }

/-- The `while` loop of lines 95-149, unfolded for at most `fuel` iterations.
The first component lists the growth passes that were completed, the second is
the state in which the function returns (its value is the `plane_segments` of
that state), or the fault that ended it. -/
def runLoop (e : CAPE F) (ops : PlaneSegOps F M) (hops : HistogramOps H)
    (cell_dist_tols : ℤ → F) : ℕ → LoopState M H → List Pass × Except Fault (LoopState M H)
  | 0, _ => ([], .error .fuel)
  | n + 1, st =>
    if st.remaining_planar_cells > 0 then
      match loopBody e ops hops cell_dist_tols st with
      | .error f => ([], .error f)
      | .ok (.exit st1) => ([], .ok st1)
      | .ok (.next st1 pass) =>
        let r := runLoop e ops hops cell_dist_tols n st1
        (pass :: r.1, r.2)
    else ([], .ok st)

/-- Function `CAPE::createPlaneSegments` with the loop unfolded for at most `fuel`
iterations: the final state, whose `plane_segments` is the returned vector. -/
def createPlaneSegmentsFuel (e : CAPE F) (ops : PlaneSegOps F M) (hops : HistogramOps H)
    (cell_grid : ℤ → M) (grid_plane_seg_map : ℤ → ℤ → ℤ) (fuel : ℕ) (hist : H)
    (planar_flags : Finset ℤ) (cell_dist_tols : ℤ → F) : Except Fault (LoopState M H) :=
  (runLoop e ops hops cell_dist_tols fuel
    (initState e cell_grid grid_plane_seg_map hist planar_flags)).2

/-- The growth passes completed in the first `fuel` iterations of
`createPlaneSegments`, in order. -/
def growthPasses (e : CAPE F) (ops : PlaneSegOps F M) (hops : HistogramOps H)
    (cell_grid : ℤ → M) (grid_plane_seg_map : ℤ → ℤ → ℤ) (fuel : ℕ) (hist : H)
    (planar_flags : Finset ℤ) (cell_dist_tols : ℤ → F) : List Pass :=
  (runLoop e ops hops cell_dist_tols fuel
    (initState e cell_grid grid_plane_seg_map hist planar_flags)).1

/-- The state at the head of the iteration that follows `k` completed growth
passes, when the loop gets that far. -/
def stateAt (e : CAPE F) (ops : PlaneSegOps F M) (hops : HistogramOps H)
    (cell_dist_tols : ℤ → F) : ℕ → LoopState M H → Option (LoopState M H)
  | 0, st => some st
  | k + 1, st =>
    if st.remaining_planar_cells > 0 then
      match loopBody e ops hops cell_dist_tols st with
      | .ok (.next st1 _) => stateAt e ops hops cell_dist_tols k st1
      | _ => none
    else none

end createPlaneSegments

/-! ## Specification vocabulary -/

section Vocabulary

variable {F M : Type} [LinearOrderedCommRing F]

/-- Grid coordinates inside the grid: a column in `[0, nr_horizontal_cells)` and a
row in `[0, nr_vertical_cells)`. -/
def InGrid (e : CAPE F) (x y : ℤ) : Prop :=
  0 ≤ x ∧ x < e.nr_horizontal_cells ∧ 0 ≤ y ∧ y < e.nr_vertical_cells

/-- The merge test in the words of the specification: the cosine of the two
normals is at least `minCosAngleForMerge` and the squared distance of the
mean of the candidate to the plane of the previous cell is at most the tolerance
of the candidate. -/
def mergeTest (e : CAPE F) (ops : PlaneSegOps F M) (cell_grid : ℤ → M)
    (cell_dist_tols : ℤ → F) (prev_index index : ℤ) : Prop :=
  (ops.getNormal (cell_grid prev_index)).dot (ops.getNormal (cell_grid index)) ≥
      e.config.minCosAngleForMerge ∧
    ((ops.getNormal (cell_grid prev_index)).dot (ops.getMean (cell_grid index)) +
        ops.getD (cell_grid prev_index)) ^ 2 ≤ cell_dist_tols index

/-- Two cell ids are 4-adjacent in-grid cells: both lie in `[0, nr_total_cells)`
and, with row `id / nr_horizontal_cells` and column `id % nr_horizontal_cells`,
they share the row and sit in neighbouring columns or share the column and sit
in neighbouring rows. -/
def adjacent4 (e : CAPE F) (a b : ℤ) : Prop :=
  0 ≤ a ∧ a < e.nr_total_cells ∧ 0 ≤ b ∧ b < e.nr_total_cells ∧
    ((a / e.nr_horizontal_cells = b / e.nr_horizontal_cells ∧
        (a % e.nr_horizontal_cells + 1 = b % e.nr_horizontal_cells ∨
          b % e.nr_horizontal_cells + 1 = a % e.nr_horizontal_cells)) ∨
      (a % e.nr_horizontal_cells = b % e.nr_horizontal_cells ∧
        (a / e.nr_horizontal_cells + 1 = b / e.nr_horizontal_cells ∨
          b / e.nr_horizontal_cells + 1 = a / e.nr_horizontal_cells)))

/-- One link of a growth chain: the next cell is a 4-adjacent in-grid cell, is in
the unassigned mask and passes the merge test against the cell before it. -/
def chainLink (e : CAPE F) (ops : PlaneSegOps F M) (cell_grid : ℤ → M)
    (unassigned : Finset ℤ) (cell_dist_tols : ℤ → F) (a b : ℤ) : Prop :=
  adjacent4 e a b ∧ b ∈ unassigned ∧ mergeTest e ops cell_grid cell_dist_tols a b

/-- Cell `c` is reachable from the seed `s`: the seed is unassigned and passes the
merge test against itself, and there is a chain `s = c0, c1, ..., cn = c` every
link of which is a `chainLink`. -/
def chainReachable (e : CAPE F) (ops : PlaneSegOps F M) (cell_grid : ℤ → M)
    (unassigned : Finset ℤ) (cell_dist_tols : ℤ → F) (s c : ℤ) : Prop :=
  s ∈ unassigned ∧ mergeTest e ops cell_grid cell_dist_tols s s ∧
    ∃ l : List ℤ, List.Chain (chainLink e ops cell_grid unassigned cell_dist_tols) s l ∧
      (s :: l).getLast (List.cons_ne_nil s l) = c

/-- The relation followed by the recursion: a passing link to an adjacent
unassigned cell. -/
def growLink (e : CAPE F) (ops : PlaneSegOps F M) (cell_grid : ℤ → M)
    (unassigned : Finset ℤ) (cell_dist_tols : ℤ → F) (a b : ℤ) : Prop :=
  adjacent4 e a b ∧ b ∈ unassigned ∧ mergeRejected e ops cell_grid cell_dist_tols a b = false

/-- What a returning call `growSeed(x, y, prev, ...)` on in-grid coordinates has
done to the activation map `am`, giving `r`. -/
def GrowSpec (e : CAPE F) (ops : PlaneSegOps F M) (cell_grid : ℤ → M)
    (unassigned : Finset ℤ) (cell_dist_tols : ℤ → F) (x y prev : ℤ) (am r : Finset ℤ) : Prop :=
  am ⊆ r ∧
  (∀ c ∈ r, c ∉ am →
    ((x + e.nr_horizontal_cells * y) ∈ unassigned ∧
      mergeRejected e ops cell_grid cell_dist_tols prev (x + e.nr_horizontal_cells * y) = false) ∧
    Relation.ReflTransGen (growLink e ops cell_grid unassigned cell_dist_tols)
      (x + e.nr_horizontal_cells * y) c) ∧
  (∀ c ∈ r, c ∉ am → ∀ c2, growLink e ops cell_grid unassigned cell_dist_tols c c2 → c2 ∈ r) ∧
  ((x + e.nr_horizontal_cells * y) ∈ unassigned →
    mergeRejected e ops cell_grid cell_dist_tols prev (x + e.nr_horizontal_cells * y) = false →
    (x + e.nr_horizontal_cells * y) ∈ r)

end Vocabulary

/-! ## Concrete engines for worked runs -/

section Instances

/-- A cell model with integer statistics: the fitted plane, its MSE and score, and
the number of points accumulated; `+=` adds the point counts and
`calculateStats` leaves the record as it is. -/
structure ToySeg where
  normal : Vec3 ℤ
  d : ℤ
  mean : Vec3 ℤ
  mse : ℤ
  score : ℤ
  count : ℤ

/-- The `PlaneSeg` operations of `ToySeg`. -/
def toyOps : PlaneSegOps ℤ ToySeg where
  getNormal := fun m => m.normal
  getD := fun m => m.d
  getMean := fun m => m.mean
  getMSE := fun m => m.mse
  getScore := fun m => m.score
  mergeWith := fun a b => { a with count := a.count + b.count }
  calculateStats := fun m => m

/-- Modelled from the spec: the `Histogram` class is not part of the sources; this
is a histogram all of whose cells share one bin, so the most populated bin lists
the cells still present and `removePoint` drops a cell (a no-op when absent). -/
def listHistogram : HistogramOps (List ℤ) where
  getPointsFromMostFrequentBin := fun l => l
  removePoint := fun l i => l.filter (fun j => j ≠ i)

/-- An engine with one row of two cells; every threshold is met by one cell. -/
def rowEngine : CAPE ℤ :=
  { config :=
      { minCosAngleForMerge := 1
        minRegionGrowingCandidateSize := 1
        minRegionGrowingCellsActivated := 1
        minRegionPlanarityScore := 0 }
    nr_horizontal_cells := 2
    nr_vertical_cells := 1
    BITSET_SIZE := 8 }

/-- Cells on the plane `z = 5` (normal `(0,0,1)`, `d = -5`, means `(i,0,5)`), one
point each, score 1; cell 1 has the smaller MSE. -/
def rowGrid : ℤ → ToySeg :=
  fun i => { normal := ⟨0, 0, 1⟩, d := -5, mean := ⟨i, 0, 5⟩, mse := 2 - i, score := 1, count := 1 }

/-- The cells of `rowGrid` with the MSEs exchanged: cell 0 has the smaller MSE. -/
def mirrorGrid : ℤ → ToySeg :=
  fun i => { normal := ⟨0, 0, 1⟩, d := -5, mean := ⟨i, 0, 5⟩, mse := 1 + i, score := 1, count := 1 }

/-- Tolerance 400 (the square of the 20 floor) for every cell. -/
def rowTols : ℤ → ℤ := fun _ => 400

/-- The engine `rowEngine` asking for three seed candidates. -/
def strictEngine : CAPE ℤ :=
  { rowEngine with
    config := { rowEngine.config with minRegionGrowingCandidateSize := 3 } }

/-- An engine with a single cell. -/
def singleEngine : CAPE ℤ :=
  { config :=
      { minCosAngleForMerge := 1
        minRegionGrowingCandidateSize := 1
        minRegionGrowingCellsActivated := 1
        minRegionPlanarityScore := 0 }
    nr_horizontal_cells := 1
    nr_vertical_cells := 1
    BITSET_SIZE := 8 }

/-- A cell whose mean `(0,0,1)` lies at distance 1 from its own plane `z = 0`. -/
def offGrid : ℤ → ToySeg :=
  fun _ => { normal := ⟨0, 0, 1⟩, d := 0, mean := ⟨0, 0, 1⟩, mse := 0, score := 1, count := 1 }

/-- Tolerance 0 for every cell. -/
def zeroTols : ℤ → ℤ := fun _ => 0

/-- A cell whose MSE equals the sentinel `INT_MAX`. -/
def hugeGrid : ℤ → ToySeg :=
  fun _ =>
    { normal := ⟨0, 0, 1⟩, d := 0, mean := ⟨0, 0, 0⟩, mse := 2147483647, score := 1, count := 1 }

/-- The label map of a freshly constructed engine: every entry 0. -/
def zeroMap : ℤ → ℤ → ℤ := fun _ _ => 0

/-- An engine with a grid of two rows and two columns and the thresholds of
`rowEngine`. -/
def squareEngine : CAPE ℤ :=
  { rowEngine with nr_horizontal_cells := 2, nr_vertical_cells := 2 }

/-- An engine with a grid of two rows and one column and the thresholds of
`rowEngine`. -/
def tallEngine : CAPE ℤ :=
  { rowEngine with nr_horizontal_cells := 1, nr_vertical_cells := 2 }

/-- The engine `rowEngine` with the option `minRegionGrowingCellsActivated` set
to `-1`. -/
def negativeEngine : CAPE ℤ :=
  { rowEngine with
    config := { rowEngine.config with minRegionGrowingCellsActivated := -1 } }

/-- The state and the pass of a loop body that ran to its end or to a `continue`. -/
def Flow.completed {σ : Type} : Flow σ → Option (σ × Pass)
  | .next st pass => some (st, pass)
  | .exit _ => none

end Instances

/-! ## Connectivity and call traces of `growSeed` -/

section GrowSeedTraces

variable {F M : Type} [LinearOrderedCommRing F]

/-- Cell `c` is joined to the seed `s` inside the region `r`: there is a path
`s = c0, c1, ..., cn = c` of 4-adjacent in-grid cells, each of `c1, ..., cn` a
member of `r`. -/
def regionPath {F : Type} (e : CAPE F) (r : Finset ℤ) (s c : ℤ) : Prop :=
  ∃ l : List ℤ, List.Chain (fun a b => adjacent4 e a b ∧ b ∈ r) s l ∧
    (s :: l).getLast (List.cons_ne_nil s l) = c

/-- The recursion of `growSeed` (`growSeedFuel`) together with the coordinates
`(x, y)` of every call that is made, the initial one first. -/
def growSeedCalls (e : CAPE F) (ops : PlaneSegOps F M) (cell_grid : ℤ → M)
    (unassigned : Finset ℤ) (cell_dist_tols : ℤ → F) :
    ℕ → ℤ → ℤ → ℤ → Finset ℤ → List (ℤ × ℤ) × Except Fault (Finset ℤ)
  | 0, x, y, _, _ => ([(x, y)], .error .fuel)
  | n + 1, x, y, prev_index, activation_map =>
    let index := x + e.nr_horizontal_cells * y
    if index ≥ e.nr_total_cells then ([(x, y)], .error .out_of_range)
    else if index < 0 then ([(x, y)], .error .negative_index)
    else if index ∉ unassigned ∨ index ∈ activation_map then ([(x, y)], .ok activation_map)
    else if mergeRejected e ops cell_grid cell_dist_tols prev_index index then
      ([(x, y)], .ok activation_map)
    else
      sourceOrder.foldl
        (fun acc d =>
          match acc.2 with
          | .error _ => acc
          | .ok am =>
            if d.inGrid e x y then
              (acc.1 ++
                  (growSeedCalls e ops cell_grid unassigned cell_dist_tols n (d.nx x) (d.ny y)
                    index am).1,
                (growSeedCalls e ops cell_grid unassigned cell_dist_tols n (d.nx x) (d.ny y)
                  index am).2)
            else acc)
        ([(x, y)], .ok (insert index activation_map))

end GrowSeedTraces

/-! ## Constructor and `CAPE::computeCellDistTols` -/

/-- Ways in which the constructor does not produce an engine. -/
inductive ConstructionFault where
  /-- Integer division by a `patchSize` of zero (undefined behaviour). -/
  | division_by_zero
  /-- A quotient or the product `_nr_horizontal_cells * _nr_vertical_cells` is not a
  value of the 32-bit `int32_t` (signed overflow, undefined behaviour). -/
  | signed_overflow
  /-- Exception `std::length_error`: the vector `_cell_grid` is asked for a negative
  number of elements. -/
  | length_error
  /-- The constructor of the label matrix `_grid_plane_seg_map` rejects its sizes. -/
  | label_map_error
deriving DecidableEq, Repr

/-- The values of `int32_t`. -/
def fitsInt32 (z : ℤ) : Bool :=
  decide (-2147483648 ≤ z) && decide (z ≤ 2147483647)

/-- Constructor `CAPE::CAPE` (lines 5-12); `patchSize` is the option
`config.getInt("patchSize")`.  The three members `_nr_horizontal_cells`,
`_nr_vertical_cells` and `_nr_total_cells` are `int32_t`: a quotient or a product
outside that range is a fault.  The type of `_grid_plane_seg_map` is declared
outside the sources, so its constructor is a parameter: `labelMapAccepts rows cols`
tells whether a matrix of these sizes can be built.  Beside that, the division
and the size of `_cell_grid`, nothing is examined: there is no test of the
derived dimensions. -/
def CAPE.construct {F : Type} (image_height image_width patchSize : ℤ) (config : Config F)
    (BITSET_SIZE : ℕ) (labelMapAccepts : ℤ → ℤ → Bool) : Except ConstructionFault (CAPE F) :=
  if patchSize = 0 then .error .division_by_zero
  else
    let nr_horizontal_cells := image_width.tdiv patchSize
    let nr_vertical_cells := image_height.tdiv patchSize
    let nr_total_cells := nr_horizontal_cells * nr_vertical_cells
    if (fitsInt32 nr_horizontal_cells && fitsInt32 nr_vertical_cells &&
        fitsInt32 nr_total_cells) = false then
      .error .signed_overflow
    else if nr_total_cells < 0 then .error .length_error
    else if labelMapAccepts nr_vertical_cells nr_horizontal_cells = false then
      .error .label_map_error
    else
      .ok
        { config := config
          nr_horizontal_cells := nr_horizontal_cells
          nr_vertical_cells := nr_vertical_cells
          BITSET_SIZE := BITSET_SIZE }

/-- A label matrix that can be built with exactly the non-negative sizes. -/
def nonNegativeSizes (rows cols : ℤ) : Bool :=
  decide (0 ≤ rows) && decide (0 ≤ cols)

/-- Difference of two vectors. -/
def Vec3.sub {F : Type} [LinearOrderedCommRing F] (a b : Vec3 F) : Vec3 F :=
  ⟨a.x - b.x, a.y - b.y, a.z - b.z⟩

/-- Euclidean norm (`Eigen` member `norm`); the square root is a library function
and a parameter. -/
def Vec3.norm {F : Type} [LinearOrderedCommRing F] (sqrt : F → F) (a : Vec3 F) : F :=
  sqrt (a.dot a)

/-- The positions of the set bits of a bitset in increasing order, as values of
`size_t`. -/
def setBitsNat (size : ℕ) (b : Finset ℤ) : List ℕ :=
  (List.range size).filter (fun k => (k : ℤ) ∈ b)

section computeCellDistTols

variable {F : Type} [LinearOrderedCommRing F]

/-- Lines 65-69 and 74-81 of `computeCellDistTols`: the value `truncated_distance`
of the cell `cell_id`.  The point cloud is the map from a row index to the point
in that row; `maxMergeDist` is the option of that name, `nr_pts_per_cell` the
member `_nr_pts_per_cell`. -/
def truncatedDistance (e : CAPE F) (sqrt : F → F) (maxMergeDist : F) (nr_pts_per_cell : ℤ)
    (pcd_array : ℤ → Vec3 F) (cell_id : ℕ) : F :=
  let cos_angle_for_merge := e.config.minCosAngleForMerge
  let sin_angle_for_merge := sqrt (1 - cos_angle_for_merge ^ 2)
  let min_merge_dist : F := 20
  let max_merge_dist := maxMergeDist
  let cell_diameter :=
    ((pcd_array ((cell_id : ℤ) * nr_pts_per_cell + nr_pts_per_cell - 1)).sub
      (pcd_array ((cell_id : ℤ) * nr_pts_per_cell))).norm sqrt
  min (max (cell_diameter * sin_angle_for_merge) min_merge_dist) max_merge_dist

/-- Function `CAPE::computeCellDistTols` (lines 61-86): a vector of
`_nr_total_cells` zeros in which the entry of every set bit of `planar_flags` is
overwritten with the square of its `truncated_distance`. -/
def computeCellDistTols (e : CAPE F) (sqrt : F → F) (maxMergeDist : F) (nr_pts_per_cell : ℤ)
    (pcd_array : ℤ → Vec3 F) (planar_flags : Finset ℤ) : List F :=
  (setBitsNat e.BITSET_SIZE planar_flags).foldl
    (fun cell_dist_tols cell_id =>
      cell_dist_tols.set cell_id
        (truncatedDistance e sqrt maxMergeDist nr_pts_per_cell pcd_array cell_id ^ 2))
    (List.replicate e.nr_total_cells.toNat 0)

end computeCellDistTols

/-- Integer square root, the stand-in for `sqrt` in worked runs over `ℤ`. -/
def intSqrt (z : ℤ) : ℤ :=
  (((List.range (z.toNat + 1)).filter (fun k => k * k ≤ z.toNat)).length : ℤ) - 1

/-- A point cloud of two points per cell: the cell `i` spans from `(0, 0, 0)` to
`(3, 4, 0)`, a diagonal of length 5. -/
def diagonalCloud : ℤ → Vec3 ℤ :=
  fun row => if row % 2 = 0 then ⟨0, 0, 0⟩ else ⟨3, 4, 0⟩

/-- The engine `rowEngine` with `minCosAngleForMerge = 0`, whose sine is 1. -/
def wideEngine : CAPE ℤ :=
  { rowEngine with config := { rowEngine.config with minCosAngleForMerge := 0 } }

/-! ## `CAPE::process` -/

section process

variable {F M H : Type} [LinearOrderedCommRing F]

/-- The state `st` with the label map `m` in place of its own. -/
def LoopState.withMap (st : LoopState M H) (m : ℤ → ℤ → ℤ) : LoopState M H :=
  { st with grid_plane_seg_map := m }

/-- The flow `fl` with the label map `m` in its state. -/
def Flow.withMap (m : ℤ → ℤ → ℤ) : Flow (LoopState M H) → Flow (LoopState M H)
  | .next st pass => .next (st.withMap m) pass
  | .exit st => .exit (st.withMap m)

end process

section growSeedTheorems

variable {F M : Type} [LinearOrderedCommRing F]

theorem foldlM_ok_inv {ε α β : Type} (f : β → α → Except ε β) (P : β → Prop) (l : List α)
    (hstep : ∀ b a r, a ∈ l → P b → f b a = .ok r → P r) :
    ∀ b r, P b → l.foldlM f b = .ok r → P r := by
  induction l with
  | nil =>
    intro b r hb h
    simp only [List.foldlM, pure, Except.pure, Except.ok.injEq] at h
    exact h ▸ hb
  | cons a l ih =>
    intro b r hb h
    rw [List.foldlM_cons] at h
    cases hfa : f b a with
    | error err => rw [hfa] at h; simp [bind, Except.bind] at h
    | ok b1 =>
      rw [hfa] at h
      simp only [bind, Except.bind] at h
      exact ih (fun b2 a2 r2 ha2 => hstep b2 a2 r2 (List.mem_cons_of_mem _ ha2)) b1 r
        (hstep b a b1 (List.mem_cons_self _ _) hb hfa) h

theorem growSeedFuel_eq_growSeedOrd (e : CAPE F) (ops : PlaneSegOps F M) (cell_grid : ℤ → M)
    (unassigned : Finset ℤ) (cell_dist_tols : ℤ → F) (n : ℕ) :
    ∀ (x y prev_index : ℤ) (activation_map : Finset ℤ),
      growSeedFuel e ops cell_grid unassigned cell_dist_tols n x y prev_index activation_map =
        growSeedOrd sourceOrder e ops cell_grid unassigned cell_dist_tols n x y prev_index
          activation_map := by
  induction n with
  | zero => intro x y p a; rfl
  | succ n ih =>
    intro x y p a
    simp only [growSeedFuel, growSeedOrd, sourceOrder, List.foldlM, bind_pure]
    simp only [Dir.inGrid, Dir.nx, Dir.ny, ih, decide_eq_true_eq, pure, Except.pure, sourceOrder]

/-- One unfolding of `growSeedOrd`. -/
theorem growSeedOrd_succ (order : List Dir) (e : CAPE F) (ops : PlaneSegOps F M) (cell_grid : ℤ → M)
    (unassigned : Finset ℤ) (cell_dist_tols : ℤ → F) (n : ℕ) (x y prev_index : ℤ) (activation_map : Finset ℤ) :
    growSeedOrd order e ops cell_grid unassigned cell_dist_tols (n + 1) x y prev_index activation_map =
    if x + e.nr_horizontal_cells * y ≥ e.nr_total_cells then .error .out_of_range
    else if x + e.nr_horizontal_cells * y < 0 then .error .negative_index
    else if x + e.nr_horizontal_cells * y ∉ unassigned ∨ x + e.nr_horizontal_cells * y ∈ activation_map then .ok activation_map
    else if mergeRejected e ops cell_grid cell_dist_tols prev_index (x + e.nr_horizontal_cells * y) then
      .ok activation_map
    else
      order.foldlM
        (fun am d =>
          if d.inGrid e x y then
            growSeedOrd order e ops cell_grid unassigned cell_dist_tols n (d.nx x) (d.ny y)
              (x + e.nr_horizontal_cells * y) am
          else pure am)
        (insert (x + e.nr_horizontal_cells * y) activation_map) := by
  rfl

theorem growSeedOrd_mono (order : List Dir) (e : CAPE F) (ops : PlaneSegOps F M) (cell_grid : ℤ → M)
    (unassigned : Finset ℤ) (cell_dist_tols : ℤ → F) (n : ℕ) :
    ∀ (x y prev_index : ℤ) (am r : Finset ℤ),
      growSeedOrd order e ops cell_grid unassigned cell_dist_tols n x y prev_index am = .ok r →
        am ⊆ r := by
  induction n with
  | zero => intro x y p am r h; simp [growSeedOrd] at h
  | succ n ih =>
    intro x y p am r h
    rw [growSeedOrd_succ] at h
    split_ifs at h with h1 h2 h3 h4
    · cases h; exact Finset.Subset.refl _
    · cases h; exact Finset.Subset.refl _
    · refine foldlM_ok_inv _ (fun b => am ⊆ b) order ?_ _ r (Finset.subset_insert _ _) h
      intro b d r1 _ hb hr
      by_cases hd : d.inGrid e x y = true
      · rw [if_pos hd] at hr
        exact hb.trans (ih _ _ _ _ _ hr)
      · rw [if_neg hd] at hr
        cases hr
        exact hb

theorem growSeedOrd_subset (order : List Dir) (e : CAPE F) (ops : PlaneSegOps F M) (cell_grid : ℤ → M)
    (unassigned : Finset ℤ) (cell_dist_tols : ℤ → F) (n : ℕ) :
    ∀ (x y prev_index : ℤ) (am r : Finset ℤ),
      growSeedOrd order e ops cell_grid unassigned cell_dist_tols n x y prev_index am = .ok r →
        am ⊆ unassigned → r ⊆ unassigned := by
  induction n with
  | zero => intro x y p am r h; simp [growSeedOrd] at h
  | succ n ih =>
    intro x y p am r h ham
    rw [growSeedOrd_succ] at h
    split_ifs at h with h1 h2 h3 h4
    · cases h; exact ham
    · cases h; exact ham
    · have hidx : x + e.nr_horizontal_cells * y ∈ unassigned := by
        by_contra hc; exact h3 (Or.inl hc)
      refine foldlM_ok_inv _ (fun b => b ⊆ unassigned) order ?_ _ r
        (Finset.insert_subset hidx ham) h
      intro b d r1 _ hb hr
      by_cases hd : d.inGrid e x y = true
      · rw [if_pos hd] at hr
        exact ih _ _ _ _ _ hr hb
      · rw [if_neg hd] at hr
        cases hr
        exact hb

theorem foldlM_ne_error {ε α β : Type} (f : β → α → Except ε β) (P : β → Prop) (e0 : ε)
    (l : List α)
    (hstep : ∀ b a, a ∈ l → P b → f b a ≠ .error e0 ∧ ∀ r, f b a = .ok r → P r) :
    ∀ b, P b → l.foldlM f b ≠ .error e0 := by
  induction l with
  | nil => intro b _ h; simp [List.foldlM, pure, Except.pure] at h
  | cons a l ih =>
    intro b hb h
    rw [List.foldlM_cons] at h
    have hs := hstep b a (List.mem_cons_self _ _) hb
    cases hfa : f b a with
    | error err =>
      rw [hfa] at h
      simp only [bind, Except.bind, Except.error.injEq] at h
      exact hs.1 (by rw [hfa, h])
    | ok b1 =>
      rw [hfa] at h
      simp only [bind, Except.bind] at h
      exact ih (fun b2 a2 ha2 => hstep b2 a2 (List.mem_cons_of_mem _ ha2)) b1 (hs.2 b1 hfa) h

theorem foldlM_ok_exists {ε α β : Type} (f : β → α → Except ε β) (P : β → Prop)
    (l : List α)
    (hstep : ∀ b a, a ∈ l → P b → ∃ r, f b a = .ok r ∧ P r) :
    ∀ b, P b → ∃ r, l.foldlM f b = .ok r ∧ P r := by
  induction l with
  | nil => intro b hb; exact ⟨b, rfl, hb⟩
  | cons a l ih =>
    intro b hb
    obtain ⟨b1, hb1, hP⟩ := hstep b a (List.mem_cons_self _ _) hb
    obtain ⟨r, hr, hPr⟩ := ih (fun b2 a2 ha2 => hstep b2 a2 (List.mem_cons_of_mem _ ha2)) b1 hP
    refine ⟨r, ?_, hPr⟩
    rw [List.foldlM_cons, hb1]
    exact hr

theorem foldlM_congr_ne_error {ε α β : Type} (f g : β → α → Except ε β) (e0 : ε)
    (l : List α) (hfg : ∀ b a, f b a ≠ .error e0 → g b a = f b a) :
    ∀ b, l.foldlM f b ≠ .error e0 → l.foldlM g b = l.foldlM f b := by
  induction l with
  | nil => intro b _; rfl
  | cons a l ih =>
    intro b h
    rw [List.foldlM_cons] at h ⊢
    rw [List.foldlM_cons]
    cases hfa : f b a with
    | error err =>
      rw [hfa] at h
      have : g b a = f b a := hfg b a (by
        rw [hfa]; intro hc; apply h; cases hc; rfl)
      rw [this, hfa]
      rfl
    | ok b1 =>
      rw [hfa] at h
      have : g b a = f b a := hfg b a (by rw [hfa]; intro hc; cases hc)
      rw [this, hfa]
      exact ih b1 h

theorem card_sdiff_insert_lt (U am : Finset ℤ) (i : ℤ) (hi : i ∈ U) (hni : i ∉ am) :
    (U \ insert i am).card < (U \ am).card := by
  apply Finset.card_lt_card
  rw [Finset.ssubset_iff_of_subset (Finset.sdiff_subset_sdiff (Finset.Subset.refl _)
    (Finset.subset_insert _ _))]
  exact ⟨i, by simp [hi, hni], by simp⟩

theorem growSeedOrd_ne_fuel (order : List Dir) (e : CAPE F) (ops : PlaneSegOps F M)
    (cell_grid : ℤ → M) (unassigned : Finset ℤ) (cell_dist_tols : ℤ → F) (n : ℕ) :
    ∀ (x y prev_index : ℤ) (am : Finset ℤ), (unassigned \ am).card < n →
      growSeedOrd order e ops cell_grid unassigned cell_dist_tols n x y prev_index am ≠
        .error .fuel := by
  induction n with
  | zero => intro x y p am h; omega
  | succ n ih =>
    intro x y p am hcard
    rw [growSeedOrd_succ]
    split_ifs with h1 h2 h3 h4
    · simp
    · simp
    · simp
    · simp
    · have hidx : x + e.nr_horizontal_cells * y ∈ unassigned := by
        by_contra hc; exact h3 (Or.inl hc)
      have hnot : x + e.nr_horizontal_cells * y ∉ am := fun hc => h3 (Or.inr hc)
      have hlt := card_sdiff_insert_lt unassigned am _ hidx hnot
      refine foldlM_ne_error _
        (fun b => insert (x + e.nr_horizontal_cells * y) am ⊆ b) _ order ?_ _
        (Finset.Subset.refl _)
      intro b d _ hb
      have hbn : (unassigned \ b).card < n :=
        lt_of_le_of_lt (Finset.card_le_card (Finset.sdiff_subset_sdiff (Finset.Subset.refl _) hb))
          (by omega)
      by_cases hd : d.inGrid e x y = true
      · rw [if_pos hd]
        exact ⟨ih _ _ _ _ hbn, fun r hr => hb.trans (growSeedOrd_mono _ _ _ _ _ _ _ _ _ _ _ _ hr)⟩
      · rw [if_neg hd]
        refine ⟨by simp [pure, Except.pure], fun r hr => ?_⟩
        cases hr
        exact hb

theorem growSeedOrd_fuel_succ (order : List Dir) (e : CAPE F) (ops : PlaneSegOps F M)
    (cell_grid : ℤ → M) (unassigned : Finset ℤ) (cell_dist_tols : ℤ → F) (n : ℕ) :
    ∀ (x y prev_index : ℤ) (am : Finset ℤ),
      growSeedOrd order e ops cell_grid unassigned cell_dist_tols n x y prev_index am ≠
        .error .fuel →
      growSeedOrd order e ops cell_grid unassigned cell_dist_tols (n + 1) x y prev_index am =
        growSeedOrd order e ops cell_grid unassigned cell_dist_tols n x y prev_index am := by
  induction n with
  | zero => intro x y p am h; exact absurd rfl h
  | succ n ih =>
    intro x y p am h
    rw [growSeedOrd_succ] at h
    rw [growSeedOrd_succ order e ops cell_grid unassigned cell_dist_tols (n + 1),
      growSeedOrd_succ order e ops cell_grid unassigned cell_dist_tols n]
    split_ifs with h1 h2 h3 h4
    · rfl
    · rfl
    · rfl
    · rfl
    · rw [if_neg h1, if_neg h2, if_neg h3, if_neg h4] at h
      refine foldlM_congr_ne_error _ _ .fuel order ?_ _ h
      intro b d hne
      by_cases hd : d.inGrid e x y = true
      · rw [if_pos hd] at hne ⊢
        rw [if_pos hd]
        exact ih _ _ _ _ hne
      · rw [if_neg hd, if_neg hd]

theorem growSeedOrd_fuel_le (order : List Dir) (e : CAPE F) (ops : PlaneSegOps F M)
    (cell_grid : ℤ → M) (unassigned : Finset ℤ) (cell_dist_tols : ℤ → F) (n m : ℕ)
    (x y prev_index : ℤ) (am : Finset ℤ) (hnm : n ≤ m)
    (h : (unassigned \ am).card < n) :
    growSeedOrd order e ops cell_grid unassigned cell_dist_tols m x y prev_index am =
      growSeedOrd order e ops cell_grid unassigned cell_dist_tols n x y prev_index am := by
  induction m with
  | zero =>
    have : n = 0 := by omega
    subst this; rfl
  | succ m ih =>
    by_cases hm : n = m + 1
    · subst hm; rfl
    · have hle : n ≤ m := by omega
      rw [growSeedOrd_fuel_succ, ih hle]
      rw [ih hle]
      exact growSeedOrd_ne_fuel _ _ _ _ _ _ _ _ _ _ _ h

theorem mergeRejected_eq_false_iff (e : CAPE F) (ops : PlaneSegOps F M) (cell_grid : ℤ → M)
    (cell_dist_tols : ℤ → F) (p i : ℤ) :
    mergeRejected e ops cell_grid cell_dist_tols p i = false ↔
      mergeTest e ops cell_grid cell_dist_tols p i := by
  simp only [mergeRejected, mergeTest, Bool.or_eq_false_iff, decide_eq_false_iff_not, not_lt,
    gt_iff_lt, ge_iff_le]

theorem idx_bounds (e : CAPE F) (x y : ℤ) (h : InGrid e x y) :
    0 ≤ x + e.nr_horizontal_cells * y ∧ x + e.nr_horizontal_cells * y < e.nr_total_cells := by
  obtain ⟨hx0, hx1, hy0, hy1⟩ := h
  unfold CAPE.nr_total_cells
  have hW : (0 : ℤ) ≤ e.nr_horizontal_cells := by omega
  have h1 : 0 ≤ e.nr_horizontal_cells * y := mul_nonneg hW hy0
  have h2 : e.nr_horizontal_cells * y ≤ e.nr_horizontal_cells * (e.nr_vertical_cells - 1) :=
    mul_le_mul_of_nonneg_left (by omega) hW
  constructor
  · omega
  · have : e.nr_horizontal_cells * (e.nr_vertical_cells - 1) =
        e.nr_horizontal_cells * e.nr_vertical_cells - e.nr_horizontal_cells := by ring
    omega

theorem idx_emod (e : CAPE F) (x y : ℤ) (h : InGrid e x y) :
    (x + e.nr_horizontal_cells * y) % e.nr_horizontal_cells = x := by
  rw [Int.add_mul_emod_self_left]
  exact Int.emod_eq_of_lt h.1 h.2.1

theorem idx_ediv (e : CAPE F) (x y : ℤ) (h : InGrid e x y) :
    (x + e.nr_horizontal_cells * y) / e.nr_horizontal_cells = y := by
  have hW : e.nr_horizontal_cells ≠ 0 := by have := h.1; have := h.2.1; omega
  rw [Int.add_mul_ediv_left _ _ hW, Int.ediv_eq_zero_of_lt h.1 h.2.1, zero_add]

theorem inGrid_of_id (e : CAPE F) (c : ℤ) (hW : 0 < e.nr_horizontal_cells) (h0 : 0 ≤ c)
    (h1 : c < e.nr_total_cells) :
    InGrid e (c % e.nr_horizontal_cells) (c / e.nr_horizontal_cells) := by
  refine ⟨Int.emod_nonneg _ (by omega), Int.emod_lt_of_pos _ hW, Int.ediv_nonneg h0 (by omega), ?_⟩
  apply Int.ediv_lt_of_lt_mul hW
  unfold CAPE.nr_total_cells at h1
  rw [mul_comm]; exact h1

theorem dir_inGrid (e : CAPE F) (d : Dir) (x y : ℤ) (h : InGrid e x y)
    (hd : d.inGrid e x y = true) : InGrid e (d.nx x) (d.ny y) := by
  obtain ⟨hx0, hx1, hy0, hy1⟩ := h
  cases d <;> simp only [Dir.inGrid, decide_eq_true_eq] at hd <;>
    simp only [Dir.nx, Dir.ny, InGrid] <;> omega

theorem dir_adjacent (e : CAPE F) (d : Dir) (x y : ℤ) (h : InGrid e x y)
    (hd : d.inGrid e x y = true) :
    adjacent4 e (x + e.nr_horizontal_cells * y) (d.nx x + e.nr_horizontal_cells * d.ny y) := by
  have h' := dir_inGrid e d x y h hd
  have b1 := idx_bounds e x y h
  have b2 := idx_bounds e _ _ h'
  refine ⟨b1.1, b1.2, b2.1, b2.2, ?_⟩
  rw [idx_emod e x y h, idx_ediv e x y h, idx_emod e _ _ h', idx_ediv e _ _ h']
  cases d <;> simp [Dir.nx, Dir.ny]

theorem adjacent_dir (e : CAPE F) (x y c : ℤ) (h : InGrid e x y)
    (hadj : adjacent4 e (x + e.nr_horizontal_cells * y) c) :
    ∃ d : Dir, d.inGrid e x y = true ∧ c = d.nx x + e.nr_horizontal_cells * d.ny y := by
  obtain ⟨_, _, hc0, hc1, hcase⟩ := hadj
  have hW : 0 < e.nr_horizontal_cells := by have := h.1; have := h.2.1; omega
  have hc := inGrid_of_id e c hW hc0 hc1
  have hsum : c % e.nr_horizontal_cells + e.nr_horizontal_cells * (c / e.nr_horizontal_cells) = c :=
    Int.emod_add_ediv c e.nr_horizontal_cells
  rw [idx_emod e x y h, idx_ediv e x y h] at hcase
  obtain ⟨hx0, hx1, hy0, hy1⟩ := hc
  rcases hcase with ⟨hrow, hcol | hcol⟩ | ⟨hcol, hrow | hrow⟩
  · refine ⟨.right, ?_, ?_⟩
    · simp only [Dir.inGrid, decide_eq_true_eq]; omega
    · simp only [Dir.nx, Dir.ny]; rw [hcol, hrow]; exact hsum.symm
  · refine ⟨.left, ?_, ?_⟩
    · simp only [Dir.inGrid, decide_eq_true_eq]; omega
    · simp only [Dir.nx, Dir.ny]
      have : x - 1 = c % e.nr_horizontal_cells := by omega
      rw [this, hrow]; exact hsum.symm
  · refine ⟨.down, ?_, ?_⟩
    · simp only [Dir.inGrid, decide_eq_true_eq]; omega
    · simp only [Dir.nx, Dir.ny]; rw [hcol, hrow]; exact hsum.symm
  · refine ⟨.up, ?_, ?_⟩
    · simp only [Dir.inGrid, decide_eq_true_eq]; omega
    · simp only [Dir.nx, Dir.ny]
      have : y - 1 = c / e.nr_horizontal_cells := by omega
      rw [this, hcol]; exact hsum.symm

theorem growSeed_fold_spec (order : List Dir) (e : CAPE F) (ops : PlaneSegOps F M)
    (cell_grid : ℤ → M) (unassigned : Finset ℤ) (cell_dist_tols : ℤ → F) (n : ℕ) (x y : ℤ)
    (hxy : InGrid e x y)
    (IH : ∀ (x y prev : ℤ) (am r : Finset ℤ), InGrid e x y →
      growSeedOrd order e ops cell_grid unassigned cell_dist_tols n x y prev am = .ok r →
      GrowSpec e ops cell_grid unassigned cell_dist_tols x y prev am r) :
    ∀ (l : List Dir) (a r : Finset ℤ),
      l.foldlM
        (fun am d =>
          if d.inGrid e x y then
            growSeedOrd order e ops cell_grid unassigned cell_dist_tols n (d.nx x) (d.ny y)
              (x + e.nr_horizontal_cells * y) am
          else pure am) a = .ok r →
      a ⊆ r ∧
      (∀ c ∈ r, c ∉ a →
        Relation.ReflTransGen (growLink e ops cell_grid unassigned cell_dist_tols)
          (x + e.nr_horizontal_cells * y) c) ∧
      (∀ c ∈ r, c ∉ a → ∀ c2, growLink e ops cell_grid unassigned cell_dist_tols c c2 → c2 ∈ r) ∧
      (∀ d ∈ l, d.inGrid e x y = true →
        (d.nx x + e.nr_horizontal_cells * d.ny y) ∈ unassigned →
        mergeRejected e ops cell_grid cell_dist_tols (x + e.nr_horizontal_cells * y)
          (d.nx x + e.nr_horizontal_cells * d.ny y) = false →
        (d.nx x + e.nr_horizontal_cells * d.ny y) ∈ r) := by
  intro l
  induction l with
  | nil =>
    intro a r h
    simp only [List.foldlM, pure, Except.pure, Except.ok.injEq] at h
    subst h
    exact ⟨Finset.Subset.refl _, fun c hc hn => absurd hc hn, fun c hc hn => absurd hc hn,
      fun d hd => absurd hd (List.not_mem_nil d)⟩
  | cons d l ihl =>
    intro a r h
    rw [List.foldlM_cons] at h
    by_cases hd : d.inGrid e x y = true
    · rw [if_pos hd] at h
      cases hcall : growSeedOrd order e ops cell_grid unassigned cell_dist_tols n (d.nx x) (d.ny y)
          (x + e.nr_horizontal_cells * y) a with
      | error err => rw [hcall] at h; simp [bind, Except.bind] at h
      | ok a1 =>
        rw [hcall] at h
        simp only [bind, Except.bind] at h
        obtain ⟨s1, s2, s3, s4⟩ := IH _ _ _ _ _ (dir_inGrid e d x y hxy hd) hcall
        obtain ⟨f1, f2, f3, f4⟩ := ihl a1 r h
        have hadj := dir_adjacent e d x y hxy hd
        refine ⟨s1.trans f1, ?_, ?_, ?_⟩
        · intro c hc hca
          by_cases hc1 : c ∈ a1
          · obtain ⟨⟨hu, hm⟩, hreach⟩ := s2 c hc1 hca
            exact Relation.ReflTransGen.trans
              (Relation.ReflTransGen.single ⟨hadj, hu, hm⟩) hreach
          · exact f2 c hc hc1
        · intro c hc hca c2 hlink
          by_cases hc1 : c ∈ a1
          · exact f1 (s3 c hc1 hca c2 hlink)
          · exact f3 c hc hc1 c2 hlink
        · intro d2 hd2 hg hu hm
          rcases List.mem_cons.1 hd2 with heq | hmem
          · subst heq
            exact f1 (s4 hu hm)
          · exact f4 d2 hmem hg hu hm
    · rw [if_neg hd] at h
      simp only [bind, Except.bind, pure, Except.pure] at h
      obtain ⟨f1, f2, f3, f4⟩ := ihl a r h
      refine ⟨f1, f2, f3, ?_⟩
      intro d2 hd2 hg hu hm
      rcases List.mem_cons.1 hd2 with heq | hmem
      · subst heq
        exact absurd hg hd
      · exact f4 d2 hmem hg hu hm

theorem growSeedOrd_spec (order : List Dir) (hall : ∀ d : Dir, d ∈ order) (e : CAPE F)
    (ops : PlaneSegOps F M) (cell_grid : ℤ → M) (unassigned : Finset ℤ)
    (cell_dist_tols : ℤ → F) (n : ℕ) :
    ∀ (x y prev : ℤ) (am r : Finset ℤ), InGrid e x y →
      growSeedOrd order e ops cell_grid unassigned cell_dist_tols n x y prev am = .ok r →
      GrowSpec e ops cell_grid unassigned cell_dist_tols x y prev am r := by
  induction n with
  | zero => intro x y p am r _ h; simp [growSeedOrd] at h
  | succ n ih =>
    intro x y p am r hxy h
    rw [growSeedOrd_succ] at h
    split_ifs at h with h1 h2 h3 h4
    · cases h
      refine ⟨Finset.Subset.refl _, fun c hc hn => absurd hc hn, fun c hc hn => absurd hc hn, ?_⟩
      intro hu _
      rcases h3 with h3 | h3
      · exact absurd hu h3
      · exact h3
    · cases h
      refine ⟨Finset.Subset.refl _, fun c hc hn => absurd hc hn, fun c hc hn => absurd hc hn, ?_⟩
      intro _ hm
      rw [hm] at h4
      exact absurd h4 (by simp)
    · have hidx : x + e.nr_horizontal_cells * y ∈ unassigned := by
        by_contra hc; exact h3 (Or.inl hc)
      have hrej : mergeRejected e ops cell_grid cell_dist_tols p
          (x + e.nr_horizontal_cells * y) = false := by
        simpa using h4
      obtain ⟨f1, f2, f3, f4⟩ :=
        growSeed_fold_spec order e ops cell_grid unassigned cell_dist_tols n x y hxy ih order _ r h
      have hin : x + e.nr_horizontal_cells * y ∈ r := f1 (Finset.mem_insert_self _ _)
      refine ⟨(Finset.subset_insert _ _).trans f1, ?_, ?_, fun _ _ => hin⟩
      · intro c hc hca
        refine ⟨⟨hidx, hrej⟩, ?_⟩
        by_cases hci : c ∈ insert (x + e.nr_horizontal_cells * y) am
        · rcases Finset.mem_insert.1 hci with heq | hmem
          · rw [heq]
          · exact absurd hmem hca
        · exact f2 c hc hci
      · intro c hc hca c2 hlink
        by_cases hci : c ∈ insert (x + e.nr_horizontal_cells * y) am
        · rcases Finset.mem_insert.1 hci with heq | hmem
          · subst heq
            obtain ⟨d, hd, hc2⟩ := adjacent_dir e x y c2 hxy hlink.1
            subst hc2
            exact f4 d (hall d) hd hlink.2.1 hlink.2.2
          · exact absurd hmem hca
        · exact f3 c hc hci c2 hlink

theorem growSeedOrd_inGrid_ok (order : List Dir) (e : CAPE F) (ops : PlaneSegOps F M)
    (cell_grid : ℤ → M) (unassigned : Finset ℤ) (cell_dist_tols : ℤ → F) (n : ℕ) :
    ∀ (x y prev : ℤ) (am : Finset ℤ), InGrid e x y → (unassigned \ am).card < n →
      ∃ r, growSeedOrd order e ops cell_grid unassigned cell_dist_tols n x y prev am = .ok r := by
  induction n with
  | zero => intro x y p am _ h; omega
  | succ n ih =>
    intro x y p am hxy hcard
    have hb := idx_bounds e x y hxy
    rw [growSeedOrd_succ]
    rw [if_neg (by omega), if_neg (by omega)]
    split_ifs with h3 h4
    · exact ⟨am, rfl⟩
    · exact ⟨am, rfl⟩
    · have hidx : x + e.nr_horizontal_cells * y ∈ unassigned := by
        by_contra hc; exact h3 (Or.inl hc)
      have hnot : x + e.nr_horizontal_cells * y ∉ am := fun hc => h3 (Or.inr hc)
      have hlt := card_sdiff_insert_lt unassigned am _ hidx hnot
      obtain ⟨r, hr, _⟩ := foldlM_ok_exists
        (fun am d =>
          if d.inGrid e x y then
            growSeedOrd order e ops cell_grid unassigned cell_dist_tols n (d.nx x) (d.ny y)
              (x + e.nr_horizontal_cells * y) am
          else pure am)
        (fun b => insert (x + e.nr_horizontal_cells * y) am ⊆ b) order
        (by
          intro b d _ hb
          have hbn : (unassigned \ b).card < n :=
            lt_of_le_of_lt
              (Finset.card_le_card (Finset.sdiff_subset_sdiff (Finset.Subset.refl _) hb))
              (by omega)
          by_cases hd : d.inGrid e x y = true
          · simp only [if_pos hd]
            obtain ⟨r, hr⟩ := ih (d.nx x) (d.ny y) (x + e.nr_horizontal_cells * y) b
              (dir_inGrid e d x y hxy hd) hbn
            exact ⟨r, hr, hb.trans (growSeedOrd_mono _ _ _ _ _ _ _ _ _ _ _ _ hr)⟩
          · simp only [if_neg hd]
            exact ⟨b, rfl, hb⟩)
        _ (Finset.Subset.refl _)
      exact ⟨r, hr⟩

theorem growLink_iff_chainLink (e : CAPE F) (ops : PlaneSegOps F M) (cell_grid : ℤ → M)
    (unassigned : Finset ℤ) (cell_dist_tols : ℤ → F) (a b : ℤ) :
    growLink e ops cell_grid unassigned cell_dist_tols a b ↔
      chainLink e ops cell_grid unassigned cell_dist_tols a b := by
  unfold growLink chainLink
  rw [mergeRejected_eq_false_iff]

theorem chainReachable_iff (e : CAPE F) (ops : PlaneSegOps F M) (cell_grid : ℤ → M)
    (unassigned : Finset ℤ) (cell_dist_tols : ℤ → F) (s c : ℤ) :
    chainReachable e ops cell_grid unassigned cell_dist_tols s c ↔
      (s ∈ unassigned ∧ mergeRejected e ops cell_grid cell_dist_tols s s = false) ∧
        Relation.ReflTransGen (growLink e ops cell_grid unassigned cell_dist_tols) s c := by
  have hrel : growLink e ops cell_grid unassigned cell_dist_tols =
      chainLink e ops cell_grid unassigned cell_dist_tols := by
    funext a b
    exact propext (growLink_iff_chainLink e ops cell_grid unassigned cell_dist_tols a b)
  rw [hrel, mergeRejected_eq_false_iff]
  unfold chainReachable
  constructor
  · rintro ⟨hu, hm, l, hl, hlast⟩
    exact ⟨⟨hu, hm⟩, List.relationReflTransGen_of_exists_chain l hl hlast⟩
  · rintro ⟨⟨hu, hm⟩, hr⟩
    obtain ⟨l, hl, hlast⟩ := List.exists_chain_of_relationReflTransGen hr
    exact ⟨hu, hm, l, hl, hlast⟩

theorem growSeedOrd_mem_iff (order : List Dir) (hall : ∀ d : Dir, d ∈ order) (e : CAPE F)
    (ops : PlaneSegOps F M) (cell_grid : ℤ → M) (unassigned : Finset ℤ)
    (cell_dist_tols : ℤ → F) (n : ℕ) (x y prev : ℤ) (r : Finset ℤ) (hxy : InGrid e x y)
    (h : growSeedOrd order e ops cell_grid unassigned cell_dist_tols n x y prev ∅ = .ok r)
    (c : ℤ) :
    c ∈ r ↔
      ((x + e.nr_horizontal_cells * y) ∈ unassigned ∧
        mergeRejected e ops cell_grid cell_dist_tols prev (x + e.nr_horizontal_cells * y) = false) ∧
      Relation.ReflTransGen (growLink e ops cell_grid unassigned cell_dist_tols)
        (x + e.nr_horizontal_cells * y) c := by
  obtain ⟨_, s2, s3, s4⟩ :=
    growSeedOrd_spec order hall e ops cell_grid unassigned cell_dist_tols n x y prev ∅ r hxy h
  constructor
  · intro hc
    exact s2 c hc (Finset.not_mem_empty c)
  · rintro ⟨⟨hu, hm⟩, hreach⟩
    induction hreach with
    | refl => exact s4 hu hm
    | tail _ hlink ihc => exact s3 _ ihc (Finset.not_mem_empty _) _ hlink

theorem seed_coords (e : CAPE F) (s : ℤ) (hW : 0 < e.nr_horizontal_cells) (hs0 : 0 ≤ s)
    (hs1 : s < e.nr_total_cells) :
    InGrid e (s.tmod e.nr_horizontal_cells) (s.tdiv e.nr_horizontal_cells) ∧
      s.tmod e.nr_horizontal_cells + e.nr_horizontal_cells * s.tdiv e.nr_horizontal_cells = s := by
  rw [Int.tmod_eq_emod hs0 (le_of_lt hW), Int.tdiv_eq_ediv hs0 (le_of_lt hW)]
  exact ⟨inGrid_of_id e s hW hs0 hs1, Int.emod_add_ediv s e.nr_horizontal_cells⟩

/-- Claim C2: for a seed `s` inside the grid, the call `growSeed(s % W, s / W, s, ...)` on an
empty activation map returns, and the map it returns holds exactly the cells
reachable from `s` by a chain of 4-adjacent in-grid cells that are all unassigned,
whose first cell passes the merge test against itself and whose every link passes
the merge test; the recursion returns the same map for every order in which the
four neighbours are visited. -/
theorem growSeed_eq_chainReachable (e : CAPE F) (ops : PlaneSegOps F M) (cell_grid : ℤ → M)
    (unassigned : Finset ℤ) (cell_dist_tols : ℤ → F) (s : ℤ)
    (hW : 0 < e.nr_horizontal_cells) (hs0 : 0 ≤ s) (hs1 : s < e.nr_total_cells) :
    ∃ r : Finset ℤ,
      growSeed e ops cell_grid (s.tmod e.nr_horizontal_cells) (s.tdiv e.nr_horizontal_cells) s
        unassigned ∅ cell_dist_tols = .ok r ∧
      (∀ c, c ∈ r ↔ chainReachable e ops cell_grid unassigned cell_dist_tols s c) ∧
      ∀ order : List Dir, order.Perm sourceOrder →
        growSeedOrd order e ops cell_grid unassigned cell_dist_tols (unassigned.card + 1)
          (s.tmod e.nr_horizontal_cells) (s.tdiv e.nr_horizontal_cells) s ∅ = .ok r := by
  obtain ⟨hxy, hidx⟩ := seed_coords e s hW hs0 hs1
  have hcard : (unassigned \ ∅).card < unassigned.card + 1 := by simp
  have key : ∀ order : List Dir, (∀ d : Dir, d ∈ order) → ∀ r : Finset ℤ,
      growSeedOrd order e ops cell_grid unassigned cell_dist_tols (unassigned.card + 1)
        (s.tmod e.nr_horizontal_cells) (s.tdiv e.nr_horizontal_cells) s ∅ = .ok r →
      ∀ c, c ∈ r ↔ chainReachable e ops cell_grid unassigned cell_dist_tols s c := by
    intro order hall r hr c
    rw [growSeedOrd_mem_iff order hall e ops cell_grid unassigned cell_dist_tols _ _ _ s r hxy hr c,
      hidx, chainReachable_iff]
  have hsrc : ∀ d : Dir, d ∈ sourceOrder := by intro d; cases d <;> simp [sourceOrder]
  obtain ⟨r, hr⟩ := growSeedOrd_inGrid_ok sourceOrder e ops cell_grid unassigned cell_dist_tols
    (unassigned.card + 1) _ _ s ∅ hxy hcard
  refine ⟨r, ?_, key sourceOrder hsrc r hr, ?_⟩
  · unfold growSeed
    rw [growSeedFuel_eq_growSeedOrd]
    exact hr
  · intro order hperm
    have hall : ∀ d : Dir, d ∈ order := fun d => hperm.symm.subset (hsrc d)
    obtain ⟨r2, hr2⟩ := growSeedOrd_inGrid_ok order e ops cell_grid unassigned cell_dist_tols
      (unassigned.card + 1) _ _ s ∅ hxy hcard
    rw [hr2]
    congr 1
    ext c
    rw [key order hall r2 hr2 c, key sourceOrder hsrc r hr c]

theorem growSeedFuel_succ_inRange (e : CAPE F) (ops : PlaneSegOps F M) (cell_grid : ℤ → M)
    (unassigned : Finset ℤ) (cell_dist_tols : ℤ → F) (n : ℕ) (x y prev : ℤ) (am : Finset ℤ)
    (h0 : 0 ≤ x + e.nr_horizontal_cells * y)
    (h1 : x + e.nr_horizontal_cells * y < e.nr_total_cells) :
    growSeedFuel e ops cell_grid unassigned cell_dist_tols (n + 1) x y prev am =
      if x + e.nr_horizontal_cells * y ∉ unassigned ∨ x + e.nr_horizontal_cells * y ∈ am then
        .ok am
      else if mergeRejected e ops cell_grid cell_dist_tols prev (x + e.nr_horizontal_cells * y) then
        .ok am
      else
        sourceOrder.foldlM
          (fun a d =>
            if d.inGrid e x y then
              growSeedOrd sourceOrder e ops cell_grid unassigned cell_dist_tols n (d.nx x) (d.ny y)
                (x + e.nr_horizontal_cells * y) a
            else pure a)
          (insert (x + e.nr_horizontal_cells * y) am) := by
  rw [growSeedFuel_eq_growSeedOrd, growSeedOrd_succ, if_neg (by omega), if_neg (by omega)]

/-- Claim C3: for a call `growSeed(x, y, prev, unassigned, activation_map, tols)` whose
index `x + nr_horizontal_cells * y` is in range: a returning call never clears a
bit; the candidate is newly marked only if it is unassigned, was not activated,
and passes both the cosine test and the squared-distance test against `prev`;
when the squared distance exceeds `tols[index]`, and likewise when the cosine
test fails, the call returns the activation map unchanged; and the recursion of
`growSeed` never needs more nested calls than the model provides. -/
theorem growSeed_candidate_gate (e : CAPE F) (ops : PlaneSegOps F M) (cell_grid : ℤ → M)
    (unassigned : Finset ℤ) (cell_dist_tols : ℤ → F) (x y prev : ℤ) (am : Finset ℤ)
    (h0 : 0 ≤ x + e.nr_horizontal_cells * y)
    (h1 : x + e.nr_horizontal_cells * y < e.nr_total_cells) :
    (∀ (n : ℕ) (r : Finset ℤ),
      growSeedFuel e ops cell_grid unassigned cell_dist_tols n x y prev am = .ok r →
        am ⊆ r ∧
        ((x + e.nr_horizontal_cells * y) ∈ r → (x + e.nr_horizontal_cells * y) ∉ am →
          (x + e.nr_horizontal_cells * y) ∈ unassigned ∧
          (ops.getNormal (cell_grid prev)).dot
              (ops.getNormal (cell_grid (x + e.nr_horizontal_cells * y))) ≥
            e.config.minCosAngleForMerge ∧
          ((ops.getNormal (cell_grid prev)).dot
                (ops.getMean (cell_grid (x + e.nr_horizontal_cells * y))) +
              ops.getD (cell_grid prev)) ^ 2 ≤
            cell_dist_tols (x + e.nr_horizontal_cells * y))) ∧
    (((ops.getNormal (cell_grid prev)).dot
            (ops.getMean (cell_grid (x + e.nr_horizontal_cells * y))) +
          ops.getD (cell_grid prev)) ^ 2 >
        cell_dist_tols (x + e.nr_horizontal_cells * y) →
      growSeed e ops cell_grid x y prev unassigned am cell_dist_tols = .ok am) ∧
    ((ops.getNormal (cell_grid prev)).dot
          (ops.getNormal (cell_grid (x + e.nr_horizontal_cells * y))) <
        e.config.minCosAngleForMerge →
      growSeed e ops cell_grid x y prev unassigned am cell_dist_tols = .ok am) ∧
    growSeed e ops cell_grid x y prev unassigned am cell_dist_tols ≠ .error .fuel := by
  refine ⟨?_, ?_, ?_, ?_⟩
  · intro n r h
    refine ⟨growSeedOrd_mono sourceOrder e ops cell_grid unassigned cell_dist_tols n x y prev am r
      (by rw [← growSeedFuel_eq_growSeedOrd]; exact h), ?_⟩
    intro hir hia
    cases n with
    | zero => simp [growSeedFuel] at h
    | succ n =>
      rw [growSeedFuel_succ_inRange e ops cell_grid unassigned cell_dist_tols n x y prev am h0 h1]
        at h
      split_ifs at h with h3 h4
      · cases h; exact absurd hir hia
      · cases h; exact absurd hir hia
      · have hu : x + e.nr_horizontal_cells * y ∈ unassigned := by
          by_contra hc; exact h3 (Or.inl hc)
        have hrej : mergeRejected e ops cell_grid cell_dist_tols prev
            (x + e.nr_horizontal_cells * y) = false := by simpa using h4
        exact ⟨hu, (mergeRejected_eq_false_iff e ops cell_grid cell_dist_tols prev _).1 hrej⟩
  · intro hd
    unfold growSeed
    rw [growSeedFuel_succ_inRange e ops cell_grid unassigned cell_dist_tols _ x y prev am h0 h1]
    have hrej : mergeRejected e ops cell_grid cell_dist_tols prev
        (x + e.nr_horizontal_cells * y) = true := by
      simp only [mergeRejected, Bool.or_eq_true, decide_eq_true_eq]
      exact Or.inr hd
    split_ifs <;> rfl
  · intro hd
    unfold growSeed
    rw [growSeedFuel_succ_inRange e ops cell_grid unassigned cell_dist_tols _ x y prev am h0 h1]
    have hrej : mergeRejected e ops cell_grid cell_dist_tols prev
        (x + e.nr_horizontal_cells * y) = true := by
      simp only [mergeRejected, Bool.or_eq_true, decide_eq_true_eq]
      exact Or.inl hd
    split_ifs <;> rfl
  · unfold growSeed
    rw [growSeedFuel_eq_growSeedOrd]
    apply growSeedOrd_ne_fuel
    exact Nat.lt_succ_of_le (Finset.card_le_card Finset.sdiff_subset)

end growSeedTheorems

/-! ## Theorems about `createPlaneSegments` -/

section createPlaneSegmentsTheorems

variable {F M H : Type} [LinearOrderedCommRing F]

theorem mergeActivated_fields (e : CAPE F) (ops : PlaneSegOps F M) (hops : HistogramOps H)
    (seed_id : ℤ) (am : Finset ℤ) (st : LoopState M H) :
    (mergeActivated e ops hops seed_id am st).unassigned_mask = st.unassigned_mask ∧
    (mergeActivated e ops hops seed_id am st).plane_segments = st.plane_segments ∧
    (mergeActivated e ops hops seed_id am st).grid_plane_seg_map = st.grid_plane_seg_map := by
  unfold mergeActivated
  generalize setBits e.BITSET_SIZE am = l
  induction l generalizing st with
  | nil => exact ⟨rfl, rfl, rfl⟩
  | cons i l ih =>
    rw [List.foldl_cons]
    obtain ⟨h1, h2, h3⟩ := ih (mergeCell ops hops seed_id st i)
    exact ⟨h1, h2, h3⟩

/-- A non-negative option is its own `size_t` value. -/
theorem toSizeT_of_nonneg (z : ℤ) (h : 0 ≤ z) : ((toSizeT z : ℕ) : ℤ) = z := by
  unfold toSizeT
  rw [if_neg (not_lt.2 h)]
  exact Int.toNat_of_nonneg h

/-- A size below an option is below the `size_t` value of the option. -/
theorem lt_toSizeT (n : ℕ) (z : ℤ) (h : (n : ℤ) < z) : n < toSizeT z := by
  have h0 : 0 ≤ z := by omega
  have h1 := toSizeT_of_nonneg z h0
  omega

/-- Everything one completed growth pass does to the loop state. -/
theorem loopBody_next (e : CAPE F) (ops : PlaneSegOps F M) (hops : HistogramOps H)
    (cell_dist_tols : ℤ → F) (st st1 : LoopState M H) (pass : Pass)
    (h : loopBody e ops hops cell_dist_tols st = .ok (.next st1 pass)) :
    ¬ (hops.getPointsFromMostFrequentBin st.hist).length <
        toSizeT e.config.minRegionGrowingCandidateSize ∧
    (selectSeed ops st.cell_grid (hops.getPointsFromMostFrequentBin st.hist)).1 =
      some pass.seed_id ∧
    growSeed e ops st.cell_grid (pass.seed_id.tmod e.nr_horizontal_cells)
      (pass.seed_id.tdiv e.nr_horizontal_cells) pass.seed_id st.unassigned_mask ∅
      cell_dist_tols = .ok pass.activation_map ∧
    st1.unassigned_mask = st.unassigned_mask \ pass.activation_map ∧
    st1.hist = (mergeActivated e ops hops pass.seed_id pass.activation_map st).hist ∧
    st1.remaining_planar_cells =
      (mergeActivated e ops hops pass.seed_id pass.activation_map st).remaining_planar_cells ∧
    (pass.accepted = true ↔
      (toSizeT e.config.minRegionGrowingCellsActivated ≤
          bitCount e.BITSET_SIZE pass.activation_map ∧
        ops.getScore (ops.calculateStats
          ((mergeActivated e ops hops pass.seed_id pass.activation_map st).cell_grid
            pass.seed_id)) > e.config.minRegionPlanarityScore)) ∧
    (pass.accepted = true →
      st1.plane_segments = st.plane_segments ++ [pass.seed_id] ∧
      st1.grid_plane_seg_map =
        markCells e pass.activation_map ((st.plane_segments ++ [pass.seed_id]).length : ℤ)
          st.grid_plane_seg_map) ∧
    (pass.accepted = false →
      st1.plane_segments = st.plane_segments ∧
      st1.grid_plane_seg_map = st.grid_plane_seg_map) := by
  unfold loopBody at h
  simp only at h
  split_ifs at h with hc
  · cases h
  split at h
  · cases h
  · rename_i seed_id hseed
    split at h
    · cases h
    · rename_i am hgrow
      obtain ⟨m1, m2, m3⟩ := mergeActivated_fields e ops hops seed_id am st
      split_ifs at h with hn hs
      · cases h
        refine ⟨hc, hseed, hgrow, by simp [m1], rfl, rfl, ?_, by simp, fun _ => ⟨m2, m3⟩⟩
        simp only [Bool.false_eq_true, false_iff, not_and]
        intro hle; omega
      · cases h
        refine ⟨hc, hseed, hgrow, by simp [m1], rfl, rfl, ?_, ?_, by simp⟩
        · simp only [true_iff]
          refine ⟨by omega, ?_⟩
          simpa using hs
        · intro _
          simp [m2, m3]
      · cases h
        refine ⟨hc, hseed, hgrow, by simp [m1], rfl, rfl, ?_, by simp, fun _ => ⟨m2, m3⟩⟩
        simp only [Bool.false_eq_true, false_iff, not_and]
        intro _ hsc
        apply hs
        simpa using hsc

theorem foldl_inv {α β : Type} (f : β → α → β) (P : β → Prop) (l : List α)
    (hstep : ∀ b a, P b → P (f b a)) : ∀ b, P b → P (l.foldl f b) := by
  induction l with
  | nil => intro b hb; exact hb
  | cons a l ih => intro b hb; exact ih (f b a) (hstep b a hb)

theorem update_update_apply (f : ℤ → ℤ → ℤ) (r c v row col : ℤ) :
    Function.update f r (Function.update (f r) c v) row col =
      if row = r ∧ col = c then v else f row col := by
  by_cases hr : row = r
  · subst hr
    by_cases hc : col = c
    · subst hc; simp
    · simp [Function.update_noteq hc, hc]
  · simp [Function.update_noteq hr, hr]

/-- The inner loop of `markCells` over the columns `0, ..., n - 1` of the row
`row_id`, entered with the counter at `c0`: the counter advances by `n`, and an
entry holds the label exactly when one of the writes lands on it. -/
theorem markCell_foldl (e : CAPE F) (am : Finset ℤ) (nr : ℤ) (row_id : ℕ) (m : ℤ → ℤ → ℤ)
    (c0 : ℕ) (n : ℕ) :
    ((List.range n).foldl (markCell e am nr row_id) (m, (c0 : ℤ))).2 = ((c0 + n : ℕ) : ℤ) ∧
    ∀ row col : ℤ,
      ((∃ j : ℕ, j < n ∧ ((c0 + j : ℕ) : ℤ) ∈ am ∧
          writeRow e row_id j = row ∧ writeCol e row_id j = col) →
        ((List.range n).foldl (markCell e am nr row_id) (m, (c0 : ℤ))).1 row col = nr) ∧
      ((¬ ∃ j : ℕ, j < n ∧ ((c0 + j : ℕ) : ℤ) ∈ am ∧
          writeRow e row_id j = row ∧ writeCol e row_id j = col) →
        ((List.range n).foldl (markCell e am nr row_id) (m, (c0 : ℤ))).1 row col = m row col) := by
  induction n with
  | zero =>
    refine ⟨by simp, fun row col => ⟨?_, fun _ => rfl⟩⟩
    rintro ⟨j, hj, _⟩
    omega
  | succ n ih =>
    obtain ⟨hc, hm⟩ := ih
    rw [List.range_succ, List.foldl_append, List.foldl_cons, List.foldl_nil]
    refine ⟨?_, fun row col => ?_⟩
    · have hstep : (markCell e am nr row_id
            ((List.range n).foldl (markCell e am nr row_id) (m, (c0 : ℤ))) n).2 =
          ((List.range n).foldl (markCell e am nr row_id) (m, (c0 : ℤ))).2 + 1 := rfl
      rw [hstep, hc]; push_cast; ring
    · obtain ⟨hyes, hno⟩ := hm row col
      have hval : (markCell e am nr row_id
            ((List.range n).foldl (markCell e am nr row_id) (m, (c0 : ℤ))) n).1 row col =
          if ((c0 + n : ℕ) : ℤ) ∈ am ∧ row = writeRow e row_id n ∧ col = writeCol e row_id n
          then nr
          else ((List.range n).foldl (markCell e am nr row_id) (m, (c0 : ℤ))).1 row col := by
        have key : ∀ acc : (ℤ → ℤ → ℤ) × ℤ, acc.2 = ((c0 + n : ℕ) : ℤ) →
            (markCell e am nr row_id acc n).1 row col =
              if ((c0 + n : ℕ) : ℤ) ∈ am ∧ row = writeRow e row_id n ∧
                  col = writeCol e row_id n
              then nr else acc.1 row col := by
          intro acc hacc
          unfold markCell
          rw [hacc]
          by_cases hin : ((c0 + n : ℕ) : ℤ) ∈ am
          · simp only [hin, if_true, true_and]
            exact update_update_apply _ _ _ _ _ _
          · simp only [hin, false_and, if_false]
        exact key _ hc
      rw [hval]
      constructor
      · rintro ⟨j, hj, hjm, hjr, hjc⟩
        by_cases hjn : j = n
        · subst hjn
          rw [if_pos ⟨hjm, hjr.symm, hjc.symm⟩]
        · split_ifs
          · rfl
          · exact hyes ⟨j, by omega, hjm, hjr, hjc⟩
      · intro hnot
        have hnot1 : ¬ (((c0 + n : ℕ) : ℤ) ∈ am ∧ row = writeRow e row_id n ∧
            col = writeCol e row_id n) := by
          rintro ⟨h1, h2, h3⟩
          exact hnot ⟨n, by omega, h1, h2.symm, h3.symm⟩
        rw [if_neg hnot1]
        apply hno
        rintro ⟨j, hj, hrest⟩
        exact hnot ⟨j, by omega, hrest⟩

/-- The outer loop of `markCells` over the rows `0, ..., n - 1`, each of `k`
columns: the counter ends at `n * k`, and an entry holds the label exactly when
one of the writes lands on it. -/
theorem markCells_foldl (e : CAPE F) (am : Finset ℤ) (nr : ℤ) (m : ℤ → ℤ → ℤ) (k n : ℕ) :
    ((List.range n).foldl
        (fun acc row_id => (List.range k).foldl (markCell e am nr row_id) acc)
        (m, (0 : ℤ))).2 = ((n * k : ℕ) : ℤ) ∧
    ∀ row col : ℤ,
      ((∃ i j : ℕ, i < n ∧ j < k ∧ ((i * k + j : ℕ) : ℤ) ∈ am ∧
          writeRow e i j = row ∧ writeCol e i j = col) →
        ((List.range n).foldl
          (fun acc row_id => (List.range k).foldl (markCell e am nr row_id) acc)
          (m, (0 : ℤ))).1 row col = nr) ∧
      ((¬ ∃ i j : ℕ, i < n ∧ j < k ∧ ((i * k + j : ℕ) : ℤ) ∈ am ∧
          writeRow e i j = row ∧ writeCol e i j = col) →
        ((List.range n).foldl
          (fun acc row_id => (List.range k).foldl (markCell e am nr row_id) acc)
          (m, (0 : ℤ))).1 row col = m row col) := by
  induction n with
  | zero =>
    refine ⟨by simp, fun row col => ⟨?_, fun _ => rfl⟩⟩
    rintro ⟨i, j, hi, _⟩
    omega
  | succ n ih =>
    obtain ⟨hc, hm⟩ := ih
    rw [List.range_succ, List.foldl_append, List.foldl_cons, List.foldl_nil]
    generalize hacc : (List.range n).foldl
        (fun acc row_id => (List.range k).foldl (markCell e am nr row_id) acc)
        (m, (0 : ℤ)) = acc at hc hm ⊢
    obtain ⟨m1, c1⟩ := acc
    simp only at hc hm
    subst hc
    obtain ⟨hc2, hm2⟩ := markCell_foldl e am nr n m1 (n * k) k
    refine ⟨?_, fun row col => ?_⟩
    · rw [hc2]; push_cast; ring
    · obtain ⟨hyes, hno⟩ := hm row col
      obtain ⟨hyes2, hno2⟩ := hm2 row col
      constructor
      · rintro ⟨i, j, hi, hj, hmem, hr, hcq⟩
        by_cases hin : i = n
        · subst hin
          exact hyes2 ⟨j, hj, hmem, hr, hcq⟩
        · by_cases hlast : ∃ j : ℕ, j < k ∧ ((n * k + j : ℕ) : ℤ) ∈ am ∧
              writeRow e n j = row ∧ writeCol e n j = col
          · exact hyes2 hlast
          · rw [hno2 hlast]
            exact hyes ⟨i, j, by omega, hj, hmem, hr, hcq⟩
      · intro hnot
        have hlast : ¬ ∃ j : ℕ, j < k ∧ ((n * k + j : ℕ) : ℤ) ∈ am ∧
            writeRow e n j = row ∧ writeCol e n j = col := by
          rintro ⟨j, hj, hrest⟩
          exact hnot ⟨n, j, by omega, hj, hrest⟩
        rw [hno2 hlast]
        apply hno
        rintro ⟨i, j, hi, hrest⟩
        exact hnot ⟨i, j, by omega, hrest⟩

/-- What `markCells` does to every entry of the label map: the entries on which a
write lands hold the label, every other entry is as before. -/
theorem markCells_apply (e : CAPE F) (am : Finset ℤ) (nr : ℤ) (m : ℤ → ℤ → ℤ) (row col : ℤ) :
    (stampedAt e am row col → markCells e am nr m row col = nr) ∧
    (¬ stampedAt e am row col → markCells e am nr m row col = m row col) :=
  (markCells_foldl e am nr m e.nr_vertical_cells.toNat e.nr_vertical_cells.toNat).2 row col

/-- On a grid with as many rows as columns the entries written by `markCells` are
the grid positions of the activated cells. -/
theorem stampedAt_square (e : CAPE F) (hsq : e.nr_vertical_cells = e.nr_horizontal_cells)
    (am : Finset ℤ) (row col : ℤ) (hr0 : 0 ≤ row) (hr1 : row < e.nr_vertical_cells)
    (hc0 : 0 ≤ col) (hc1 : col < e.nr_horizontal_cells) :
    stampedAt e am row col ↔ col + e.nr_horizontal_cells * row ∈ am := by
  have hpos : 0 < e.nr_horizontal_cells := by omega
  have hk : ((e.nr_vertical_cells.toNat : ℕ) : ℤ) = e.nr_horizontal_cells := by
    rw [Int.toNat_of_nonneg (by omega), hsq]
  have hwr : ∀ i j : ℕ, (j : ℤ) < e.nr_horizontal_cells →
      writeRow e i j = (i : ℤ) ∧ writeCol e i j = (j : ℤ) := by
    intro i j hj
    unfold writeRow writeCol
    have h1 : (i : ℤ) * e.nr_horizontal_cells + (j : ℤ) =
        (j : ℤ) + e.nr_horizontal_cells * (i : ℤ) := by ring
    rw [h1]
    constructor
    · rw [Int.add_mul_ediv_left _ _ (ne_of_gt hpos), Int.ediv_eq_zero_of_lt (by omega) hj]
      simp
    · rw [Int.add_mul_emod_self_left, Int.emod_eq_of_lt (by omega) hj]
  constructor
  · rintro ⟨i, j, hi, hj, hmem, hr, hcq⟩
    have hj1 : (j : ℤ) < e.nr_horizontal_cells := by omega
    obtain ⟨h1, h2⟩ := hwr i j hj1
    rw [h1] at hr
    rw [h2] at hcq
    subst hr; subst hcq
    have h3 : (((i * e.nr_vertical_cells.toNat + j : ℕ)) : ℤ) =
        (j : ℤ) + e.nr_horizontal_cells * (i : ℤ) := by
      push_cast; rw [hk]; ring
    rw [← h3]; exact hmem
  · intro hmem
    have hj1 : ((col.toNat : ℕ) : ℤ) < e.nr_horizontal_cells := by
      rw [Int.toNat_of_nonneg hc0]; exact hc1
    obtain ⟨h1, h2⟩ := hwr row.toNat col.toNat hj1
    refine ⟨row.toNat, col.toNat, by omega, by omega, ?_, ?_, ?_⟩
    · have h3 : (((row.toNat * e.nr_vertical_cells.toNat + col.toNat : ℕ)) : ℤ) =
          col + e.nr_horizontal_cells * row := by
        push_cast; rw [hk, Int.toNat_of_nonneg hr0, Int.toNat_of_nonneg hc0]; ring
      rw [h3]; exact hmem
    · rw [h1, Int.toNat_of_nonneg hr0]
    · rw [h2, Int.toNat_of_nonneg hc0]

theorem runLoop_succ (e : CAPE F) (ops : PlaneSegOps F M) (hops : HistogramOps H)
    (cell_dist_tols : ℤ → F) (n : ℕ) (st : LoopState M H) :
    runLoop e ops hops cell_dist_tols (n + 1) st =
      if st.remaining_planar_cells > 0 then
        match loopBody e ops hops cell_dist_tols st with
        | .error f => ([], .error f)
        | .ok (.exit st1) => ([], .ok st1)
        | .ok (.next st1 pass) =>
          (pass :: (runLoop e ops hops cell_dist_tols n st1).1,
            (runLoop e ops hops cell_dist_tols n st1).2)
      else ([], .ok st) := by
  rfl

/-- Claim C10: when the most populated bin holds fewer cells than
`minRegionGrowingCandidateSize` at the start of an iteration, the loop body takes
the `return` of line 100 with the state untouched (label map, cell models and
segment list as they were), so `createPlaneSegments` returns without error the
segments accepted before. -/
theorem createPlaneSegments_exit_on_few_candidates (e : CAPE F) (ops : PlaneSegOps F M)
    (hops : HistogramOps H) (cell_dist_tols : ℤ → F) (st : LoopState M H)
    (h : (hops.getPointsFromMostFrequentBin st.hist).length <
      e.config.minRegionGrowingCandidateSize) :
    loopBody e ops hops cell_dist_tols st = .ok (.exit st) ∧
      ∀ n : ℕ, runLoop e ops hops cell_dist_tols (n + 1) st = ([], .ok st) := by
  have hb : loopBody e ops hops cell_dist_tols st = .ok (.exit st) := by
    unfold loopBody
    simp only [if_pos (lt_toSizeT _ _ h)]
  refine ⟨hb, fun n => ?_⟩
  rw [runLoop_succ, hb]
  split_ifs <;> rfl

theorem loopBody_exit (e : CAPE F) (ops : PlaneSegOps F M) (hops : HistogramOps H)
    (cell_dist_tols : ℤ → F) (st st1 : LoopState M H)
    (h : loopBody e ops hops cell_dist_tols st = .ok (.exit st1)) : st1 = st := by
  unfold loopBody at h
  simp only at h
  split_ifs at h with hc
  · cases h; rfl
  split at h
  · cases h
  · split at h
    · cases h
    · split_ifs at h <;> cases h

theorem runLoop_segments (e : CAPE F) (ops : PlaneSegOps F M) (hops : HistogramOps H)
    (cell_dist_tols : ℤ → F) (n : ℕ) :
    ∀ (st stf : LoopState M H), (runLoop e ops hops cell_dist_tols n st).2 = .ok stf →
      stf.plane_segments =
        st.plane_segments ++
          (((runLoop e ops hops cell_dist_tols n st).1).filter (fun p => p.accepted)).map
            (fun p => p.seed_id) := by
  induction n with
  | zero => intro st stf h; simp [runLoop] at h
  | succ n ih =>
    intro st stf h
    rw [runLoop_succ] at h ⊢
    split_ifs at h ⊢ with hrem
    · split at h
      · simp at h
      · rename_i st1 hb
        simp only [Except.ok.injEq] at h
        subst h
        rw [loopBody_exit e ops hops cell_dist_tols st st1 hb]
        simp
      · rename_i st1 pass hb
        simp only at h
        have hrec := ih st1 stf h
        obtain ⟨_, _, _, _, _, _, _, hacc, hrej⟩ := loopBody_next e ops hops cell_dist_tols st st1 pass hb
        rw [hrec]
        cases hp : pass.accepted with
        | true =>
          rw [(hacc hp).1]
          simp [List.filter_cons, hp]
        | false =>
          rw [(hrej hp).1]
          simp [List.filter_cons, hp]
    · simp only [Except.ok.injEq] at h
      subst h
      simp

/-- Claim C9, amended: for a non-negative `minRegionGrowingCellsActivated`, a
completed growth pass appends exactly one segment (the cell of the seed) to
`plane_segments` when at least `minRegionGrowingCellsActivated` cells were
activated and the score of the merged, finalised model exceeds
`minRegionPlanarityScore`, and leaves the list and the label map untouched
otherwise.  The accepted pass writes the new length of the list, the 1-based
position of its segment, into exactly the entries on which a write of the label
loops lands, and changes no other entry; on a grid with as many rows as columns
these entries are the grid positions of the activated cells.  Earlier entries of
the list are never removed or reordered, so the returned list is the list of
accepted seeds in pass order. -/
theorem createPlaneSegments_append_order (e : CAPE F) (ops : PlaneSegOps F M)
    (hops : HistogramOps H) (cell_dist_tols : ℤ → F)
    (hmin : 0 ≤ e.config.minRegionGrowingCellsActivated) :
    (∀ (st st1 : LoopState M H) (pass : Pass),
      loopBody e ops hops cell_dist_tols st = .ok (.next st1 pass) →
        (pass.accepted = true ↔
          (e.config.minRegionGrowingCellsActivated ≤
              (bitCount e.BITSET_SIZE pass.activation_map : ℤ) ∧
            ops.getScore (ops.calculateStats
              ((mergeActivated e ops hops pass.seed_id pass.activation_map st).cell_grid
                pass.seed_id)) > e.config.minRegionPlanarityScore)) ∧
        (pass.accepted = true →
          st1.plane_segments = st.plane_segments ++ [pass.seed_id] ∧
          ∀ row col : ℤ,
            (stampedAt e pass.activation_map row col →
              st1.grid_plane_seg_map row col = (st1.plane_segments.length : ℤ)) ∧
            (¬ stampedAt e pass.activation_map row col →
              st1.grid_plane_seg_map row col = st.grid_plane_seg_map row col)) ∧
        (pass.accepted = false →
          st1.plane_segments = st.plane_segments ∧
          st1.grid_plane_seg_map = st.grid_plane_seg_map)) ∧
    (e.nr_vertical_cells = e.nr_horizontal_cells →
      ∀ (activation_map : Finset ℤ) (row col : ℤ),
        0 ≤ row → row < e.nr_vertical_cells → 0 ≤ col → col < e.nr_horizontal_cells →
          (stampedAt e activation_map row col ↔
            col + e.nr_horizontal_cells * row ∈ activation_map)) ∧
    (∀ (n : ℕ) (st stf : LoopState M H),
      (runLoop e ops hops cell_dist_tols n st).2 = .ok stf →
        stf.plane_segments =
          st.plane_segments ++
            (((runLoop e ops hops cell_dist_tols n st).1).filter (fun p => p.accepted)).map
              (fun p => p.seed_id)) := by
  refine ⟨?_, fun hsq am row col h1 h2 h3 h4 => stampedAt_square e hsq am row col h1 h2 h3 h4,
    fun n st stf h => runLoop_segments e ops hops cell_dist_tols n st stf h⟩
  intro st st1 pass hb
  obtain ⟨_, _, _, _, _, _, hiff, hacc, hrej⟩ :=
    loopBody_next e ops hops cell_dist_tols st st1 pass hb
  have hsz := toSizeT_of_nonneg _ hmin
  refine ⟨?_, ?_, hrej⟩
  · rw [hiff]
    constructor
    · rintro ⟨h1, h2⟩
      exact ⟨by omega, h2⟩
    · rintro ⟨h1, h2⟩
      exact ⟨by omega, h2⟩
  · intro hp
    obtain ⟨hseg, hmap⟩ := hacc hp
    refine ⟨hseg, fun row col => ?_⟩
    rw [hmap, hseg]
    exact markCells_apply e _ _ _ row col

theorem growSeed_subset_unassigned (e : CAPE F) (ops : PlaneSegOps F M) (cell_grid : ℤ → M)
    (unassigned : Finset ℤ) (cell_dist_tols : ℤ → F) (x y prev : ℤ) (r : Finset ℤ)
    (h : growSeed e ops cell_grid x y prev unassigned ∅ cell_dist_tols = .ok r) :
    r ⊆ unassigned := by
  unfold growSeed at h
  rw [growSeedFuel_eq_growSeedOrd] at h
  exact growSeedOrd_subset _ _ _ _ _ _ _ _ _ _ _ _ h (Finset.empty_subset _)

theorem runLoop_passes (e : CAPE F) (ops : PlaneSegOps F M) (hops : HistogramOps H)
    (cell_dist_tols : ℤ → F) (n : ℕ) :
    ∀ st : LoopState M H,
      (∀ p ∈ (runLoop e ops hops cell_dist_tols n st).1,
        p.activation_map ⊆ st.unassigned_mask) ∧
      ((runLoop e ops hops cell_dist_tols n st).1).Pairwise
        (fun p q => Disjoint p.activation_map q.activation_map) ∧
      (∀ stf, (runLoop e ops hops cell_dist_tols n st).2 = .ok stf →
        stf.unassigned_mask ⊆ st.unassigned_mask ∧
        ∀ p ∈ (runLoop e ops hops cell_dist_tols n st).1,
          Disjoint p.activation_map stf.unassigned_mask) := by
  induction n with
  | zero =>
    intro st
    simp [runLoop]
  | succ n ih =>
    intro st
    rw [runLoop_succ]
    split_ifs with hrem
    · split
      · simp
      · rename_i st1 hb
        rw [loopBody_exit e ops hops cell_dist_tols st st1 hb]
        simp
      · rename_i st1 pass hb
        obtain ⟨_, _, hgrow, hun, _⟩ := loopBody_next e ops hops cell_dist_tols st st1 pass hb
        have hsub := growSeed_subset_unassigned _ _ _ _ _ _ _ _ _ hgrow
        obtain ⟨i1, i2, i3⟩ := ih st1
        have hst1 : st1.unassigned_mask ⊆ st.unassigned_mask := by
          rw [hun]; exact Finset.sdiff_subset
        have hdis : Disjoint pass.activation_map st1.unassigned_mask := by
          rw [hun]; exact Finset.disjoint_sdiff
        refine ⟨?_, ?_, ?_⟩
        · intro p hp
          rcases List.mem_cons.1 hp with heq | hmem
          · rw [heq]; exact hsub
          · exact (i1 p hmem).trans hst1
        · rw [List.pairwise_cons]
          exact ⟨fun q hq => Finset.disjoint_of_subset_right (i1 q hq) hdis, i2⟩
        · intro stf hstf
          obtain ⟨j1, j2⟩ := i3 stf hstf
          refine ⟨j1.trans hst1, ?_⟩
          intro p hp
          rcases List.mem_cons.1 hp with heq | hmem
          · rw [heq]; exact Finset.disjoint_of_subset_right j1 hdis
          · exact j2 p hmem
    · simp

theorem pairwise_disjoint_count (l : List Pass)
    (h : l.Pairwise (fun p q => Disjoint p.activation_map q.activation_map)) (c : ℤ) :
    (l.filter (fun p => decide (c ∈ p.activation_map))).length ≤ 1 := by
  induction l with
  | nil => simp
  | cons p l ih =>
    rw [List.pairwise_cons] at h
    by_cases hc : c ∈ p.activation_map
    · have hnil : l.filter (fun q => decide (c ∈ q.activation_map)) = [] := by
        rw [List.filter_eq_nil_iff]
        intro q hq
        have := Finset.disjoint_left.1 (h.1 q hq) hc
        simpa using this
      simp [List.filter_cons, hc, hnil]
    · simpa [List.filter_cons, hc] using ih h.2

/-- Claim C7: within one run of `createPlaneSegments` the activation maps of the
growth passes, accepted or discarded, are pairwise disjoint: the cells a pass
activates leave the unassigned mask for good (they are outside the mask in the
state the function returns), so a cell is activated by at most one pass and
lies in at most one accepted segment. -/
theorem createPlaneSegments_passes_disjoint (e : CAPE F) (ops : PlaneSegOps F M)
    (hops : HistogramOps H) (cell_grid : ℤ → M) (grid_plane_seg_map : ℤ → ℤ → ℤ) (n : ℕ)
    (hist : H) (planar_flags : Finset ℤ) (cell_dist_tols : ℤ → F) :
    (growthPasses e ops hops cell_grid grid_plane_seg_map n hist planar_flags
        cell_dist_tols).Pairwise
      (fun p q => Disjoint p.activation_map q.activation_map) ∧
    (∀ stf,
      createPlaneSegmentsFuel e ops hops cell_grid grid_plane_seg_map n hist planar_flags
          cell_dist_tols = .ok stf →
        ∀ p ∈ growthPasses e ops hops cell_grid grid_plane_seg_map n hist planar_flags
            cell_dist_tols,
          Disjoint p.activation_map stf.unassigned_mask) ∧
    (∀ c : ℤ,
      ((growthPasses e ops hops cell_grid grid_plane_seg_map n hist planar_flags
          cell_dist_tols).filter (fun p => decide (c ∈ p.activation_map))).length ≤ 1 ∧
      (((growthPasses e ops hops cell_grid grid_plane_seg_map n hist planar_flags
          cell_dist_tols).filter (fun p => p.accepted)).filter
            (fun p => decide (c ∈ p.activation_map))).length ≤ 1) := by
  obtain ⟨_, h2, h3⟩ := runLoop_passes e ops hops cell_dist_tols n
    (initState e cell_grid grid_plane_seg_map hist planar_flags)
  refine ⟨h2, fun stf hstf => (h3 stf hstf).2, fun c => ⟨?_, ?_⟩⟩
  · exact pairwise_disjoint_count _ h2 c
  · exact pairwise_disjoint_count _ (h2.sublist (List.filter_sublist _)) c

theorem stateAt_unassigned (e : CAPE F) (ops : PlaneSegOps F M) (hops : HistogramOps H)
    (cell_dist_tols : ℤ → F) (k : ℕ) :
    ∀ st stk : LoopState M H, stateAt e ops hops cell_dist_tols k st = some stk →
      stk.unassigned_mask ⊆ st.unassigned_mask := by
  induction k with
  | zero =>
    intro st stk h
    simp only [stateAt, Option.some.injEq] at h
    rw [h]
  | succ k ih =>
    intro st stk h
    simp only [stateAt] at h
    split_ifs at h with hrem
    split at h
    · rename_i st1 pass hb
      obtain ⟨_, _, _, hun, _⟩ := loopBody_next e ops hops cell_dist_tols st st1 pass hb
      refine (ih st1 stk h).trans ?_
      rw [hun]; exact Finset.sdiff_subset
    · cases h

/-- Claim C4: at the head of every iteration of the driver loop, and after the
update of line 124, the unassigned mask is a subset of the planar flag set; the
activation map a growth pass obtains from `growSeed` is a subset of the
unassigned mask as it stood when the pass began; and every call of the recursion
that starts from an activation map inside the mask returns one inside the mask,
so every intermediate activation map of a pass is inside the mask as well. -/
theorem createPlaneSegments_mask_invariants (e : CAPE F) (ops : PlaneSegOps F M)
    (hops : HistogramOps H) (cell_grid : ℤ → M) (grid_plane_seg_map : ℤ → ℤ → ℤ)
    (hist : H) (planar_flags : Finset ℤ) (cell_dist_tols : ℤ → F) :
    (∀ (k : ℕ) (st : LoopState M H),
      stateAt e ops hops cell_dist_tols k
          (initState e cell_grid grid_plane_seg_map hist planar_flags) = some st →
        st.unassigned_mask ⊆ planar_flags ∧
        ∀ (st1 : LoopState M H) (pass : Pass),
          loopBody e ops hops cell_dist_tols st = .ok (.next st1 pass) →
            pass.activation_map ⊆ st.unassigned_mask ∧
            st1.unassigned_mask ⊆ planar_flags) ∧
    (∀ (grid : ℤ → M) (unassigned : Finset ℤ) (n : ℕ) (x y prev : ℤ) (am r : Finset ℤ),
      am ⊆ unassigned →
      growSeedFuel e ops grid unassigned cell_dist_tols n x y prev am = .ok r →
        r ⊆ unassigned) := by
  constructor
  · intro k st hst
    have h1 : st.unassigned_mask ⊆ planar_flags :=
      stateAt_unassigned e ops hops cell_dist_tols k _ st hst
    refine ⟨h1, ?_⟩
    intro st1 pass hb
    obtain ⟨_, _, hgrow, hun, _⟩ := loopBody_next e ops hops cell_dist_tols st st1 pass hb
    refine ⟨growSeed_subset_unassigned _ _ _ _ _ _ _ _ _ hgrow, ?_⟩
    rw [hun]
    exact Finset.sdiff_subset.trans h1
  · intro grid unassigned n x y prev am r ham h
    rw [growSeedFuel_eq_growSeedOrd] at h
    exact growSeedOrd_subset _ _ _ _ _ _ _ _ _ _ _ _ h ham

theorem selectSeed_fold (mse : ℤ → F) (cands : List ℤ) :
    ∀ (o : Option ℤ) (m : F),
      let res := cands.foldl
        (fun (acc : Option ℤ × F) c => if mse c < acc.2 then (some c, mse c) else acc) (o, m)
      (res = (o, m) ∧ ∀ c ∈ cands, m ≤ mse c) ∨
      ∃ (s : ℤ) (pre post : List ℤ), cands = pre ++ s :: post ∧ res = (some s, mse s) ∧
        mse s < m ∧ (∀ c ∈ pre, mse s < mse c) ∧ (∀ c ∈ post, mse s ≤ mse c) := by
  induction cands with
  | nil => intro o m; left; simp
  | cons c cs ih =>
    intro o m
    simp only [List.foldl_cons]
    by_cases hc : mse c < m
    · rw [if_pos hc]
      rcases ih (some c) (mse c) with ⟨hres, hall⟩ | ⟨s, pre, post, hsplit, hres, hlt, hpre, hpost⟩
      · right
        exact ⟨c, [], cs, rfl, hres, hc, by simp, hall⟩
      · right
        refine ⟨s, c :: pre, post, by rw [hsplit]; rfl, hres, lt_trans hlt hc, ?_, hpost⟩
        intro c2 hc2
        rcases List.mem_cons.1 hc2 with heq | hmem
        · rw [heq]; exact hlt
        · exact hpre c2 hmem
    · rw [if_neg hc]
      rcases ih o m with ⟨hres, hall⟩ | ⟨s, pre, post, hsplit, hres, hlt, hpre, hpost⟩
      · left
        refine ⟨hres, ?_⟩
        intro c2 hc2
        rcases List.mem_cons.1 hc2 with heq | hmem
        · rw [heq]; exact not_lt.1 hc
        · exact hall c2 hmem
      · right
        refine ⟨s, c :: pre, post, by rw [hsplit]; rfl, hres, hlt, ?_, hpost⟩
        intro c2 hc2
        rcases List.mem_cons.1 hc2 with heq | hmem
        · rw [heq]; exact lt_of_lt_of_le hlt (not_lt.1 hc)
        · exact hpre c2 hmem

/-- When at least one seed candidate has an MSE below the initial value of
`min_mse`, the scan of lines 103-110 ends with `seed_id` set to a member of the
candidate list whose MSE is at most the MSE of every candidate and strictly below
the MSE of every candidate in front of it (the first one of minimal MSE), and
with `min_mse` equal to that MSE. -/
theorem selectSeed_first_min (ops : PlaneSegOps F M) (cell_grid : ℤ → M)
    (seed_candidates : List ℤ)
    (h : ∃ c ∈ seed_candidates, ops.getMSE (cell_grid c) < (INT_MAX : F)) :
    ∃ (seed_id : ℤ) (pre post : List ℤ),
      selectSeed ops cell_grid seed_candidates = (some seed_id, ops.getMSE (cell_grid seed_id)) ∧
      seed_candidates = pre ++ seed_id :: post ∧
      seed_id ∈ seed_candidates ∧
      (∀ c ∈ seed_candidates, ops.getMSE (cell_grid seed_id) ≤ ops.getMSE (cell_grid c)) ∧
      (∀ c ∈ pre, ops.getMSE (cell_grid seed_id) < ops.getMSE (cell_grid c)) := by
  rcases selectSeed_fold (fun c => ops.getMSE (cell_grid c)) seed_candidates none (INT_MAX : F)
    with ⟨_, hall⟩ | ⟨s, pre, post, hsplit, hres, _, hpre, hpost⟩
  · obtain ⟨c, hc, hlt⟩ := h
    exact absurd hlt (not_lt.2 (hall c hc))
  · refine ⟨s, pre, post, hres, hsplit, by rw [hsplit]; simp, ?_, hpre⟩
    intro c hc
    rw [hsplit] at hc
    rcases List.mem_append.1 hc with h1 | h1
    · exact le_of_lt (hpre c h1)
    · rcases List.mem_cons.1 h1 with heq | hmem
      · rw [heq]
      · exact hpost c hmem

end createPlaneSegmentsTheorems

/-! ## Termination, connectivity and call bounds of `growSeed` -/

section growSeedBounds

variable {F M : Type} [LinearOrderedCommRing F]

theorem growSeedOrd_range (order : List Dir) (e : CAPE F) (ops : PlaneSegOps F M)
    (cell_grid : ℤ → M) (unassigned : Finset ℤ) (cell_dist_tols : ℤ → F) (n : ℕ) :
    ∀ (x y prev_index : ℤ) (am r : Finset ℤ),
      growSeedOrd order e ops cell_grid unassigned cell_dist_tols n x y prev_index am = .ok r →
        ∀ c ∈ r, c ∈ am ∨ (c ∈ unassigned ∧ 0 ≤ c ∧ c < e.nr_total_cells) := by
  induction n with
  | zero => intro x y p am r h; simp [growSeedOrd] at h
  | succ n ih =>
    intro x y p am r h
    rw [growSeedOrd_succ] at h
    split_ifs at h with h1 h2 h3 h4
    · cases h; exact fun c hc => Or.inl hc
    · cases h; exact fun c hc => Or.inl hc
    · have hidx : x + e.nr_horizontal_cells * y ∈ unassigned := by
        by_contra hc; exact h3 (Or.inl hc)
      refine foldlM_ok_inv _
        (fun b => ∀ c ∈ b, c ∈ am ∨ (c ∈ unassigned ∧ 0 ≤ c ∧ c < e.nr_total_cells)) order ?_ _ r
        ?_ h
      · intro b d r1 _ hb hr
        by_cases hd : d.inGrid e x y = true
        · rw [if_pos hd] at hr
          intro c hc
          rcases ih _ _ _ _ _ hr c hc with hcb | hcu
          · exact hb c hcb
          · exact Or.inr hcu
        · rw [if_neg hd] at hr
          cases hr
          exact hb
      · intro c hc
        rcases Finset.mem_insert.1 hc with heq | hmem
        · right
          rw [heq]
          exact ⟨hidx, by omega, by omega⟩
        · exact Or.inl hmem

theorem growSeedOrd_ok_index (order : List Dir) (e : CAPE F) (ops : PlaneSegOps F M)
    (cell_grid : ℤ → M) (unassigned : Finset ℤ) (cell_dist_tols : ℤ → F) (n : ℕ)
    (x y prev_index : ℤ) (am r : Finset ℤ)
    (h : growSeedOrd order e ops cell_grid unassigned cell_dist_tols n x y prev_index am = .ok r) :
    0 ≤ x + e.nr_horizontal_cells * y ∧ x + e.nr_horizontal_cells * y < e.nr_total_cells := by
  cases n with
  | zero => simp [growSeedOrd] at h
  | succ n =>
    rw [growSeedOrd_succ] at h
    split_ifs at h with h1 h2 <;> omega

theorem growSeed_eq_fuel (e : CAPE F) (ops : PlaneSegOps F M) (cell_grid : ℤ → M)
    (unassigned : Finset ℤ) (cell_dist_tols : ℤ → F) (x y prev : ℤ) (am : Finset ℤ) (n : ℕ)
    (hn : (unassigned \ am).card < n) :
    growSeedFuel e ops cell_grid unassigned cell_dist_tols n x y prev am =
      growSeed e ops cell_grid x y prev unassigned am cell_dist_tols := by
  have hle : (unassigned \ am).card ≤ unassigned.card := Finset.card_le_card Finset.sdiff_subset
  unfold growSeed
  rw [growSeedFuel_eq_growSeedOrd, growSeedFuel_eq_growSeedOrd]
  rw [growSeedOrd_fuel_le sourceOrder e ops cell_grid unassigned cell_dist_tols
      ((unassigned \ am).card + 1) n x y prev am (by omega) (by omega),
    growSeedOrd_fuel_le sourceOrder e ops cell_grid unassigned cell_dist_tols
      ((unassigned \ am).card + 1) (unassigned.card + 1) x y prev am (by omega) (by omega)]

/-- Claim C17: `growSeed` terminates on every input.  A call either returns at once
(with a fault or with the activation map unchanged) or its cell is unassigned and
not yet activated, and the recursive calls run on a map with strictly fewer
unassigned, not yet activated cells; so a recursion depth of one more than the
number of such cells gives the result, for every deeper bound the same one.  The
cells a call newly activates are unassigned cells inside the grid, hence at most
as many as the unassigned mask holds and at most `nr_total_cells`. -/
theorem growSeed_terminates (e : CAPE F) (ops : PlaneSegOps F M) (cell_grid : ℤ → M)
    (unassigned : Finset ℤ) (cell_dist_tols : ℤ → F) (x y prev : ℤ) (am : Finset ℤ) :
    growSeed e ops cell_grid x y prev unassigned am cell_dist_tols ≠ .error .fuel ∧
    (∀ n : ℕ, (unassigned \ am).card < n →
      growSeedFuel e ops cell_grid unassigned cell_dist_tols n x y prev am =
        growSeed e ops cell_grid x y prev unassigned am cell_dist_tols) ∧
    (∀ n : ℕ,
      growSeedFuel e ops cell_grid unassigned cell_dist_tols (n + 1) x y prev am =
          .error .out_of_range ∨
      growSeedFuel e ops cell_grid unassigned cell_dist_tols (n + 1) x y prev am =
          .error .negative_index ∨
      growSeedFuel e ops cell_grid unassigned cell_dist_tols (n + 1) x y prev am = .ok am ∨
      ((x + e.nr_horizontal_cells * y) ∈ unassigned ∧
        (x + e.nr_horizontal_cells * y) ∉ am ∧
        (unassigned \ insert (x + e.nr_horizontal_cells * y) am).card <
          (unassigned \ am).card ∧
        growSeedFuel e ops cell_grid unassigned cell_dist_tols (n + 1) x y prev am =
          sourceOrder.foldlM
            (fun a d =>
              if d.inGrid e x y then
                growSeedFuel e ops cell_grid unassigned cell_dist_tols n (d.nx x) (d.ny y)
                  (x + e.nr_horizontal_cells * y) a
              else pure a)
            (insert (x + e.nr_horizontal_cells * y) am))) ∧
    (∀ r : Finset ℤ,
      growSeed e ops cell_grid x y prev unassigned am cell_dist_tols = .ok r →
        am ⊆ r ∧ r \ am ⊆ unassigned ∧
        (r \ am).card ≤ (unassigned \ am).card ∧
        (r \ am).card ≤ unassigned.card ∧
        (r \ am).card ≤ e.nr_total_cells.toNat) := by
  refine ⟨?_, ?_, ?_, ?_⟩
  · unfold growSeed
    rw [growSeedFuel_eq_growSeedOrd]
    apply growSeedOrd_ne_fuel
    exact Nat.lt_succ_of_le (Finset.card_le_card Finset.sdiff_subset)
  · intro n hn
    exact growSeed_eq_fuel e ops cell_grid unassigned cell_dist_tols x y prev am n hn
  · intro n
    have hfun : (fun a d =>
          if d.inGrid e x y then
            growSeedFuel e ops cell_grid unassigned cell_dist_tols n (d.nx x) (d.ny y)
              (x + e.nr_horizontal_cells * y) a
          else pure a) =
        (fun (a : Finset ℤ) (d : Dir) =>
          if d.inGrid e x y then
            growSeedOrd sourceOrder e ops cell_grid unassigned cell_dist_tols n (d.nx x) (d.ny y)
              (x + e.nr_horizontal_cells * y) a
          else pure a) := by
      funext a d
      rw [growSeedFuel_eq_growSeedOrd]
    rw [hfun, growSeedFuel_eq_growSeedOrd, growSeedOrd_succ]
    split_ifs with h1 h2 h3 h4
    · exact Or.inl rfl
    · exact Or.inr (Or.inl rfl)
    · exact Or.inr (Or.inr (Or.inl rfl))
    · exact Or.inr (Or.inr (Or.inl rfl))
    · have hidx : x + e.nr_horizontal_cells * y ∈ unassigned := by
        by_contra hc; exact h3 (Or.inl hc)
      have hnot : x + e.nr_horizontal_cells * y ∉ am := fun hc => h3 (Or.inr hc)
      exact Or.inr (Or.inr (Or.inr
        ⟨hidx, hnot, card_sdiff_insert_lt unassigned am _ hidx hnot, rfl⟩))
  · intro r hr
    unfold growSeed at hr
    rw [growSeedFuel_eq_growSeedOrd] at hr
    have hmono := growSeedOrd_mono _ _ _ _ _ _ _ _ _ _ _ _ hr
    have hrange := growSeedOrd_range _ _ _ _ _ _ _ _ _ _ _ _ hr
    have hsubU : r \ am ⊆ unassigned \ am := by
      intro c hc
      rw [Finset.mem_sdiff] at hc ⊢
      rcases hrange c hc.1 with h | h
      · exact absurd h hc.2
      · exact ⟨h.1, hc.2⟩
    have hsubG : r \ am ⊆ Finset.Icc 0 (e.nr_total_cells - 1) := by
      intro c hc
      rw [Finset.mem_sdiff] at hc
      rcases hrange c hc.1 with h | h
      · exact absurd h hc.2
      · rw [Finset.mem_Icc]; omega
    refine ⟨hmono, hsubU.trans Finset.sdiff_subset, Finset.card_le_card hsubU,
      (Finset.card_le_card hsubU).trans (Finset.card_le_card Finset.sdiff_subset), ?_⟩
    have := Finset.card_le_card hsubG
    rw [Int.card_Icc] at this
    have heq : e.nr_total_cells - 1 + 1 - 0 = e.nr_total_cells := by ring
    rw [heq] at this
    exact this

theorem growLink_path_in_region (e : CAPE F) (ops : PlaneSegOps F M) (cell_grid : ℤ → M)
    (unassigned : Finset ℤ) (cell_dist_tols : ℤ → F) (r : Finset ℤ) (s : ℤ)
    (hclosed : ∀ c, Relation.ReflTransGen (growLink e ops cell_grid unassigned cell_dist_tols) s c →
      c ∈ r) (c : ℤ)
    (h : Relation.ReflTransGen (growLink e ops cell_grid unassigned cell_dist_tols) s c) :
    regionPath e r s c := by
  have hr : Relation.ReflTransGen (fun a b => adjacent4 e a b ∧ b ∈ r) s c := by
    induction h with
    | refl => exact Relation.ReflTransGen.refl
    | tail hab hlink ih =>
      exact Relation.ReflTransGen.tail ih ⟨hlink.1, hclosed _ (Relation.ReflTransGen.tail hab hlink)⟩
  exact List.exists_chain_of_relationReflTransGen hr

/-- Claim C14: the activation map a growth pass obtains from `growSeed` on an empty
map is either empty or a 4-connected region that contains the seed: every
activated cell is joined to the seed by a path of horizontally or vertically
adjacent grid cells all of which are activated. -/
theorem growSeed_region_connected (e : CAPE F) (ops : PlaneSegOps F M) (cell_grid : ℤ → M)
    (unassigned : Finset ℤ) (cell_dist_tols : ℤ → F) (s : ℤ) (r : Finset ℤ)
    (hW : 0 < e.nr_horizontal_cells)
    (h : growSeed e ops cell_grid (s.tmod e.nr_horizontal_cells)
      (s.tdiv e.nr_horizontal_cells) s unassigned ∅ cell_dist_tols = .ok r) :
    r = ∅ ∨ (s ∈ r ∧ ∀ c ∈ r, regionPath e r s c) := by
  unfold growSeed at h
  rw [growSeedFuel_eq_growSeedOrd] at h
  have hidx := growSeedOrd_ok_index _ _ _ _ _ _ _ _ _ _ _ _ h
  rw [Int.tmod_add_tdiv] at hidx
  obtain ⟨hxy, hs⟩ := seed_coords e s hW hidx.1 hidx.2
  have hsrc : ∀ d : Dir, d ∈ sourceOrder := by intro d; cases d <;> simp [sourceOrder]
  have hmem := growSeedOrd_mem_iff sourceOrder hsrc e ops cell_grid unassigned cell_dist_tols _ _ _
    s r hxy h
  rw [hs] at hmem
  by_cases hne : r = ∅
  · exact Or.inl hne
  · right
    obtain ⟨c0, hc0⟩ := Finset.nonempty_iff_ne_empty.2 hne
    have hroot := ((hmem c0).1 hc0).1
    refine ⟨(hmem s).2 ⟨hroot, Relation.ReflTransGen.refl⟩, ?_⟩
    intro c hc
    exact growLink_path_in_region e ops cell_grid unassigned cell_dist_tols r s
      (fun c2 hc2 => (hmem c2).2 ⟨hroot, hc2⟩) c ((hmem c).1 hc).2

theorem growSeedCalls_succ (e : CAPE F) (ops : PlaneSegOps F M) (cell_grid : ℤ → M)
    (unassigned : Finset ℤ) (cell_dist_tols : ℤ → F) (n : ℕ) (x y prev_index : ℤ)
    (activation_map : Finset ℤ) :
    growSeedCalls e ops cell_grid unassigned cell_dist_tols (n + 1) x y prev_index activation_map =
    if x + e.nr_horizontal_cells * y ≥ e.nr_total_cells then ([(x, y)], .error .out_of_range)
    else if x + e.nr_horizontal_cells * y < 0 then ([(x, y)], .error .negative_index)
    else if x + e.nr_horizontal_cells * y ∉ unassigned ∨
        x + e.nr_horizontal_cells * y ∈ activation_map then ([(x, y)], .ok activation_map)
    else if mergeRejected e ops cell_grid cell_dist_tols prev_index
        (x + e.nr_horizontal_cells * y) then
      ([(x, y)], .ok activation_map)
    else
      sourceOrder.foldl
        (fun acc d =>
          match acc.2 with
          | .error _ => acc
          | .ok am =>
            if d.inGrid e x y then
              (acc.1 ++
                  (growSeedCalls e ops cell_grid unassigned cell_dist_tols n (d.nx x) (d.ny y)
                    (x + e.nr_horizontal_cells * y) am).1,
                (growSeedCalls e ops cell_grid unassigned cell_dist_tols n (d.nx x) (d.ny y)
                  (x + e.nr_horizontal_cells * y) am).2)
            else acc)
        ([(x, y)], .ok (insert (x + e.nr_horizontal_cells * y) activation_map)) := by
  rfl

theorem foldl_calls_snd {α : Type} (step : Finset ℤ → α → List (ℤ × ℤ) × Except Fault (Finset ℤ))
    (guard : α → Bool) (f : Finset ℤ → α → Except Fault (Finset ℤ))
    (hf : ∀ a d, f a d = if guard d then (step a d).2 else pure a) (l : List α) :
    ∀ (t : List (ℤ × ℤ)) (res : Except Fault (Finset ℤ)),
      (l.foldl
        (fun (acc : List (ℤ × ℤ) × Except Fault (Finset ℤ)) d =>
          match acc.2 with
          | .error _ => acc
          | .ok am => if guard d then (acc.1 ++ (step am d).1, (step am d).2) else acc)
        (t, res)).2 = res >>= fun a => l.foldlM f a := by
  induction l with
  | nil =>
    intro t res
    cases res <;> rfl
  | cons d l ih =>
    intro t res
    rw [List.foldl_cons]
    cases res with
    | error err =>
      have := ih t (.error err)
      simpa using this
    | ok a =>
      simp only [List.foldlM_cons]
      have hfa := hf a d
      by_cases hg : guard d = true
      · rw [if_pos hg] at hfa
        simp only [hg, if_true]
        rw [ih, ← hfa]
        rfl
      · rw [if_neg hg] at hfa
        simp only [hg]
        rw [ih]
        show (Except.ok a >>= fun a => List.foldlM f a l) = _
        simp only [bind, Except.bind, hfa, pure, Except.pure]

theorem growSeedCalls_snd (e : CAPE F) (ops : PlaneSegOps F M) (cell_grid : ℤ → M)
    (unassigned : Finset ℤ) (cell_dist_tols : ℤ → F) (n : ℕ) :
    ∀ (x y prev : ℤ) (am : Finset ℤ),
      (growSeedCalls e ops cell_grid unassigned cell_dist_tols n x y prev am).2 =
        growSeedFuel e ops cell_grid unassigned cell_dist_tols n x y prev am := by
  induction n with
  | zero => intro x y p am; rfl
  | succ n ih =>
    intro x y p am
    rw [growSeedFuel_eq_growSeedOrd, growSeedOrd_succ, growSeedCalls_succ]
    split_ifs with h1 h2 h3 h4
    · rfl
    · rfl
    · rfl
    · rfl
    · rw [foldl_calls_snd
        (fun (a : Finset ℤ) (d : Dir) =>
          growSeedCalls e ops cell_grid unassigned cell_dist_tols n (d.nx x) (d.ny y)
            (x + e.nr_horizontal_cells * y) a)
        (fun d : Dir => d.inGrid e x y)
        (fun (a : Finset ℤ) (d : Dir) =>
          if d.inGrid e x y then
            growSeedOrd sourceOrder e ops cell_grid unassigned cell_dist_tols n (d.nx x) (d.ny y)
              (x + e.nr_horizontal_cells * y) a
          else pure a)]
      · rfl
      · intro a d
        rw [ih, growSeedFuel_eq_growSeedOrd]

theorem growSeedCalls_inGrid (e : CAPE F) (ops : PlaneSegOps F M) (cell_grid : ℤ → M)
    (unassigned : Finset ℤ) (cell_dist_tols : ℤ → F) (n : ℕ) :
    ∀ (x y prev : ℤ) (am : Finset ℤ), InGrid e x y →
      (x, y) ∈ (growSeedCalls e ops cell_grid unassigned cell_dist_tols n x y prev am).1 ∧
      ∀ p ∈ (growSeedCalls e ops cell_grid unassigned cell_dist_tols n x y prev am).1,
        InGrid e p.1 p.2 := by
  induction n with
  | zero =>
    intro x y p am hxy
    simp only [growSeedCalls, List.mem_singleton, true_and]
    intro q hq; rw [hq]; exact hxy
  | succ n ih =>
    intro x y p am hxy
    have hsingle : ∀ q ∈ [(x, y)], InGrid e q.1 q.2 := by
      intro q hq; rw [List.mem_singleton] at hq; rw [hq]; exact hxy
    rw [growSeedCalls_succ]
    split_ifs with h1 h2 h3 h4
    · exact ⟨List.mem_singleton_self _, hsingle⟩
    · exact ⟨List.mem_singleton_self _, hsingle⟩
    · exact ⟨List.mem_singleton_self _, hsingle⟩
    · exact ⟨List.mem_singleton_self _, hsingle⟩
    · refine foldl_inv _
        (fun acc : List (ℤ × ℤ) × Except Fault (Finset ℤ) =>
          (x, y) ∈ acc.1 ∧ ∀ q ∈ acc.1, InGrid e q.1 q.2) sourceOrder ?_ _
        ⟨List.mem_singleton_self _, hsingle⟩
      intro acc d hacc
      cases hres : acc.2 with
      | error err => simp only [hres]; exact hacc
      | ok a =>
        simp only [hres]
        by_cases hd : d.inGrid e x y = true
        · rw [if_pos hd]
          have hrec := ih (d.nx x) (d.ny y) (x + e.nr_horizontal_cells * y) a
            (dir_inGrid e d x y hxy hd)
          refine ⟨List.mem_append_left _ hacc.1, ?_⟩
          intro q hq
          rcases List.mem_append.1 hq with h | h
          · exact hacc.2 q h
          · exact hrec.2 q h
        · rw [if_neg hd]; exact hacc

/-- Claim C16: for a grid with `nr_horizontal_cells > 0` and a seed with
`0 <= seed_id < nr_total_cells`, the call
`growSeed(seed_id % nr_horizontal_cells, seed_id / nr_horizontal_cells, seed_id, ...)`
has index `seed_id`, and it and every recursive call it triggers, at every
recursion depth, have `0 <= x < nr_horizontal_cells`, `0 <= y < nr_vertical_cells`
and `0 <= x + nr_horizontal_cells * y < nr_total_cells`; the call returns an
activation map, so the `out_of_range` branch is never taken. -/
theorem growSeed_calls_in_grid (e : CAPE F) (ops : PlaneSegOps F M) (cell_grid : ℤ → M)
    (unassigned : Finset ℤ) (cell_dist_tols : ℤ → F) (seed_id : ℤ)
    (hW : 0 < e.nr_horizontal_cells) (h0 : 0 ≤ seed_id) (h1 : seed_id < e.nr_total_cells) :
    seed_id.tmod e.nr_horizontal_cells +
        e.nr_horizontal_cells * seed_id.tdiv e.nr_horizontal_cells = seed_id ∧
    (∀ n : ℕ,
      (growSeedCalls e ops cell_grid unassigned cell_dist_tols n
          (seed_id.tmod e.nr_horizontal_cells) (seed_id.tdiv e.nr_horizontal_cells) seed_id
          ∅).2 =
        growSeedFuel e ops cell_grid unassigned cell_dist_tols n
          (seed_id.tmod e.nr_horizontal_cells) (seed_id.tdiv e.nr_horizontal_cells) seed_id ∅ ∧
      (seed_id.tmod e.nr_horizontal_cells, seed_id.tdiv e.nr_horizontal_cells) ∈
        (growSeedCalls e ops cell_grid unassigned cell_dist_tols n
          (seed_id.tmod e.nr_horizontal_cells) (seed_id.tdiv e.nr_horizontal_cells) seed_id
          ∅).1 ∧
      ∀ p ∈ (growSeedCalls e ops cell_grid unassigned cell_dist_tols n
          (seed_id.tmod e.nr_horizontal_cells) (seed_id.tdiv e.nr_horizontal_cells) seed_id
          ∅).1,
        (0 ≤ p.1 ∧ p.1 < e.nr_horizontal_cells ∧ 0 ≤ p.2 ∧ p.2 < e.nr_vertical_cells) ∧
        0 ≤ p.1 + e.nr_horizontal_cells * p.2 ∧
        p.1 + e.nr_horizontal_cells * p.2 < e.nr_total_cells) ∧
    (∃ r : Finset ℤ,
      growSeed e ops cell_grid (seed_id.tmod e.nr_horizontal_cells)
        (seed_id.tdiv e.nr_horizontal_cells) seed_id unassigned ∅ cell_dist_tols = .ok r) ∧
    growSeed e ops cell_grid (seed_id.tmod e.nr_horizontal_cells)
        (seed_id.tdiv e.nr_horizontal_cells) seed_id unassigned ∅ cell_dist_tols ≠
      .error .out_of_range := by
  obtain ⟨hxy, hs⟩ := seed_coords e seed_id hW h0 h1
  have hok : ∃ r : Finset ℤ,
      growSeed e ops cell_grid (seed_id.tmod e.nr_horizontal_cells)
        (seed_id.tdiv e.nr_horizontal_cells) seed_id unassigned ∅ cell_dist_tols = .ok r := by
    unfold growSeed
    rw [growSeedFuel_eq_growSeedOrd]
    exact growSeedOrd_inGrid_ok sourceOrder e ops cell_grid unassigned cell_dist_tols _ _ _ _ ∅
      hxy (by simp)
  refine ⟨hs, ?_, hok, ?_⟩
  · intro n
    obtain ⟨hin, hall⟩ := growSeedCalls_inGrid e ops cell_grid unassigned cell_dist_tols n _ _
      seed_id ∅ hxy
    refine ⟨growSeedCalls_snd e ops cell_grid unassigned cell_dist_tols n _ _ _ _, hin, ?_⟩
    intro p hp
    exact ⟨hall p hp, idx_bounds e p.1 p.2 (hall p hp)⟩
  · obtain ⟨r, hr⟩ := hok
    rw [hr]
    simp

end growSeedBounds

/-! ## Loop counters of `createPlaneSegments` -/

section loopCounters

variable {F M H : Type} [LinearOrderedCommRing F]

theorem mergeActivated_counters (e : CAPE F) (ops : PlaneSegOps F M) (hops : HistogramOps H)
    (seed_id : ℤ) (am : Finset ℤ) (st : LoopState M H) :
    (mergeActivated e ops hops seed_id am st).remaining_planar_cells =
        st.remaining_planar_cells - (bitCount e.BITSET_SIZE am : ℤ) ∧
    (mergeActivated e ops hops seed_id am st).hist =
        (setBits e.BITSET_SIZE am).foldl hops.removePoint st.hist := by
  unfold mergeActivated bitCount
  generalize setBits e.BITSET_SIZE am = l
  induction l generalizing st with
  | nil => simp
  | cons i l ih =>
    rw [List.foldl_cons, List.foldl_cons]
    obtain ⟨h1, h2⟩ := ih (mergeCell ops hops seed_id st i)
    refine ⟨?_, ?_⟩
    · rw [h1]
      simp only [mergeCell, List.length_cons, Nat.cast_add, Nat.cast_one]
      ring
    · rw [h2]
      rfl

theorem bitCount_sdiff (size : ℕ) (U A : Finset ℤ) (h : A ⊆ U) :
    bitCount size (U \ A) + bitCount size A = bitCount size U := by
  unfold bitCount setBits
  generalize (List.range size).map Int.ofNat = l
  rw [← List.countP_eq_length_filter, ← List.countP_eq_length_filter,
    ← List.countP_eq_length_filter]
  induction l with
  | nil => rfl
  | cons c l ih =>
    rw [List.countP_cons, List.countP_cons, List.countP_cons]
    simp only [Finset.mem_sdiff] at ih ⊢
    by_cases hA : c ∈ A
    · have hU : c ∈ U := h hA
      simp only [Finset.mem_sdiff, hA, hU, not_true_eq_false, and_false, decide_False,
        decide_True, if_true]
      simp only [Bool.false_eq_true, if_false]
      omega
    · by_cases hU : c ∈ U
      · simp only [Finset.mem_sdiff, hA, hU, not_false_eq_true, and_self, decide_False,
          decide_True, if_true]
        simp only [Bool.false_eq_true, if_false]
        omega
      · simp only [Finset.mem_sdiff, hA, hU, false_and, decide_False]
        simp only [Bool.false_eq_true, if_false]
        omega

theorem setBits_toFinset (size : ℕ) (b : Finset ℤ) (hb : ∀ i ∈ b, 0 ≤ i ∧ i < (size : ℤ)) :
    (setBits size b).toFinset = b := by
  ext c
  simp only [setBits, List.mem_toFinset, List.mem_filter, List.mem_map, List.mem_range,
    decide_eq_true_eq]
  constructor
  · exact fun h => h.2
  · intro hc
    obtain ⟨h0, h1⟩ := hb c hc
    refine ⟨⟨c.toNat, by omega, ?_⟩, hc⟩
    simp [Int.toNat_of_nonneg h0]

theorem foldl_removePoint_members (hops : HistogramOps H) (members : H → Finset ℤ)
    (hrem : ∀ h i, members (hops.removePoint h i) = (members h).erase i) (l : List ℤ) :
    ∀ h : H, members (l.foldl hops.removePoint h) = members h \ l.toFinset := by
  induction l with
  | nil => intro h; simp
  | cons i l ih =>
    intro h
    rw [List.foldl_cons, ih, hrem]
    ext c
    simp only [Finset.mem_sdiff, Finset.mem_erase, List.toFinset_cons, Finset.mem_insert,
      List.mem_toFinset]
    tauto

/-- The loop invariant behind claim C18, from any state that satisfies it. -/
theorem stateAt_counters (e : CAPE F) (ops : PlaneSegOps F M) (hops : HistogramOps H)
    (cell_dist_tols : ℤ → F) (k : ℕ) :
    ∀ st stk : LoopState M H, stateAt e ops hops cell_dist_tols k st = some stk →
      st.remaining_planar_cells = (bitCount e.BITSET_SIZE st.unassigned_mask : ℤ) →
      stk.remaining_planar_cells = (bitCount e.BITSET_SIZE stk.unassigned_mask : ℤ) := by
  induction k with
  | zero =>
    intro st stk h hinv
    simp only [stateAt, Option.some.injEq] at h
    rw [← h]; exact hinv
  | succ k ih =>
    intro st stk h hinv
    simp only [stateAt] at h
    split_ifs at h with hrem
    split at h
    · rename_i st1 pass hb
      obtain ⟨_, _, hgrow, hun, _, hr, _⟩ := loopBody_next e ops hops cell_dist_tols st st1 pass hb
      have hsub := growSeed_subset_unassigned _ _ _ _ _ _ _ _ _ hgrow
      refine ih st1 stk h ?_
      rw [hr, (mergeActivated_counters e ops hops _ _ st).1, hun, hinv]
      have := bitCount_sdiff e.BITSET_SIZE st.unassigned_mask pass.activation_map hsub
      omega
    · cases h

theorem stateAt_members (e : CAPE F) (ops : PlaneSegOps F M) (hops : HistogramOps H)
    (cell_dist_tols : ℤ → F) (members : H → Finset ℤ)
    (hrem : ∀ h i, members (hops.removePoint h i) = (members h).erase i) (k : ℕ) :
    ∀ st stk : LoopState M H, stateAt e ops hops cell_dist_tols k st = some stk →
      (∀ i ∈ st.unassigned_mask, 0 ≤ i ∧ i < (e.BITSET_SIZE : ℤ)) →
      members st.hist = st.unassigned_mask →
      members stk.hist = stk.unassigned_mask := by
  induction k with
  | zero =>
    intro st stk h _ hinv
    simp only [stateAt, Option.some.injEq] at h
    rw [← h]; exact hinv
  | succ k ih =>
    intro st stk h hbits hinv
    simp only [stateAt] at h
    split_ifs at h with hrem2
    split at h
    · rename_i st1 pass hb
      obtain ⟨_, _, hgrow, hun, hh, _⟩ := loopBody_next e ops hops cell_dist_tols st st1 pass hb
      have hsub := growSeed_subset_unassigned _ _ _ _ _ _ _ _ _ hgrow
      refine ih st1 stk h ?_ ?_
      · intro i hi
        rw [hun] at hi
        exact hbits i (Finset.sdiff_subset hi)
      · rw [hh, (mergeActivated_counters e ops hops _ _ st).2,
          foldl_removePoint_members hops members hrem, hinv, hun,
          setBits_toFinset _ _ (fun i hi => hbits i (hsub hi))]
    · cases h

/-- Claim C18: at the head of every iteration of the loop of `createPlaneSegments`
the counter `remaining_planar_cells` equals the number of bits set in the
unassigned mask, so it is never negative; and for a histogram whose `removePoint`
removes exactly the named member, whose most populated bin lists members only and
whose members are at first the planar cells, the cells still in the histogram are
exactly the unassigned mask, so every seed candidate is an unassigned planar
cell. -/
theorem createPlaneSegments_counters (e : CAPE F) (ops : PlaneSegOps F M)
    (hops : HistogramOps H) (cell_grid : ℤ → M) (grid_plane_seg_map : ℤ → ℤ → ℤ)
    (hist : H) (planar_flags : Finset ℤ) (cell_dist_tols : ℤ → F) :
    (∀ (k : ℕ) (st : LoopState M H),
      stateAt e ops hops cell_dist_tols k
          (initState e cell_grid grid_plane_seg_map hist planar_flags) = some st →
        st.remaining_planar_cells = (bitCount e.BITSET_SIZE st.unassigned_mask : ℤ) ∧
        0 ≤ st.remaining_planar_cells) ∧
    (∀ members : H → Finset ℤ,
      (∀ h i, members (hops.removePoint h i) = (members h).erase i) →
      (∀ h, ∀ c ∈ hops.getPointsFromMostFrequentBin h, c ∈ members h) →
      members hist = planar_flags →
      (∀ i ∈ planar_flags, 0 ≤ i ∧ i < (e.BITSET_SIZE : ℤ)) →
      ∀ (k : ℕ) (st : LoopState M H),
        stateAt e ops hops cell_dist_tols k
            (initState e cell_grid grid_plane_seg_map hist planar_flags) = some st →
          members st.hist = st.unassigned_mask ∧
          ∀ c ∈ hops.getPointsFromMostFrequentBin st.hist,
            c ∈ st.unassigned_mask ∧ c ∈ planar_flags) := by
  constructor
  · intro k st hst
    have h := stateAt_counters e ops hops cell_dist_tols k _ st hst rfl
    exact ⟨h, by rw [h]; exact Int.natCast_nonneg _⟩
  · intro members hrem hget hinit hbits k st hst
    have hm := stateAt_members e ops hops cell_dist_tols members hrem k _ st hst hbits hinit
    refine ⟨hm, ?_⟩
    intro c hc
    have hcu : c ∈ st.unassigned_mask := by rw [← hm]; exact hget _ c hc
    exact ⟨hcu, stateAt_unassigned e ops hops cell_dist_tols k _ st hst hcu⟩

end loopCounters

/-! ## Theorems about the constructor and `computeCellDistTols` -/

theorem foldl_set_getElem? {α : Type} (v : ℕ → α) (l : List ℕ) :
    ∀ (tols : List α) (j : ℕ),
      (l.foldl (fun t c => t.set c (v c)) tols).length = tols.length ∧
      (j < tols.length →
        (l.foldl (fun t c => t.set c (v c)) tols)[j]? =
          if j ∈ l then some (v j) else tols[j]?) := by
  induction l with
  | nil => intro tols j; simp
  | cons c l ih =>
    intro tols j
    rw [List.foldl_cons]
    obtain ⟨hlen, hget⟩ := ih (tols.set c (v c)) j
    rw [List.length_set] at hlen hget
    refine ⟨hlen, fun hj => ?_⟩
    rw [hget hj]
    by_cases hjl : j ∈ l
    · simp [hjl]
    · by_cases hjc : c = j
      · subst hjc
        simp [hjl, List.getElem?_set, hj]
      · have : ¬ j = c := fun h => hjc h.symm
        simp [hjl, this, List.getElem?_set, hjc]

theorem truncatedDistance_bounds {F : Type} [LinearOrderedCommRing F] (e : CAPE F)
    (sqrt : F → F) (maxMergeDist : F) (nr_pts_per_cell : ℤ) (pcd_array : ℤ → Vec3 F)
    (cell_id : ℕ) :
    truncatedDistance e sqrt maxMergeDist nr_pts_per_cell pcd_array cell_id ≤ maxMergeDist ∧
    (20 ≤ maxMergeDist →
      20 ≤ truncatedDistance e sqrt maxMergeDist nr_pts_per_cell pcd_array cell_id) ∧
    (maxMergeDist < 20 →
      truncatedDistance e sqrt maxMergeDist nr_pts_per_cell pcd_array cell_id = maxMergeDist) := by
  unfold truncatedDistance
  refine ⟨min_le_right _ _, fun h => le_min (le_max_right _ _) h, fun h => ?_⟩
  exact min_eq_right (le_trans (le_of_lt h) (le_max_right _ _))

/-- Claim C12 as stated fails for `maxMergeDist = 10`: the planar cell 0, whose
diagonal 5 times the sine 1 is below the floor 20, gets
`truncated_distance = min(max(5, 20), 10) = 10`, which is below `min_merge_dist`,
and tolerance 100. -/
theorem computeCellDistTols_below_floor :
    (0 : ℤ) ∈ ({0, 1} : Finset ℤ) ∧
    truncatedDistance wideEngine intSqrt 10 2 diagonalCloud 0 = 10 ∧
    ¬ (20 : ℤ) ≤ truncatedDistance wideEngine intSqrt 10 2 diagonalCloud 0 ∧
    computeCellDistTols wideEngine intSqrt 10 2 diagonalCloud {0, 1} = [100, 100] := by
  decide

/-- Claim C12, amended: `computeCellDistTols` returns a vector of length
`nr_total_cells` in which a cell that is not planar has tolerance 0 and a planar
cell has tolerance `t ^ 2` with
`t = min(max(cell diagonal * sqrt(1 - minCosAngleForMerge ^ 2), 20), maxMergeDist)`;
`t <= maxMergeDist` always, `20 <= t` when `maxMergeDist >= 20`, and
`t = maxMergeDist` when `maxMergeDist < 20`. -/
theorem computeCellDistTols_spec {F : Type} [LinearOrderedCommRing F] (e : CAPE F)
    (sqrt : F → F) (maxMergeDist : F) (nr_pts_per_cell : ℤ) (pcd_array : ℤ → Vec3 F)
    (planar_flags : Finset ℤ) :
    (computeCellDistTols e sqrt maxMergeDist nr_pts_per_cell pcd_array planar_flags).length =
      e.nr_total_cells.toNat ∧
    (∀ i : ℕ, i < e.nr_total_cells.toNat →
      ((i : ℤ) ∉ planar_flags →
        (computeCellDistTols e sqrt maxMergeDist nr_pts_per_cell pcd_array planar_flags)[i]? =
          some 0) ∧
      ((i : ℤ) ∈ planar_flags → i < e.BITSET_SIZE →
        (computeCellDistTols e sqrt maxMergeDist nr_pts_per_cell pcd_array planar_flags)[i]? =
          some (truncatedDistance e sqrt maxMergeDist nr_pts_per_cell pcd_array i ^ 2))) ∧
    (∀ i : ℕ,
      truncatedDistance e sqrt maxMergeDist nr_pts_per_cell pcd_array i ≤ maxMergeDist ∧
      (20 ≤ maxMergeDist →
        20 ≤ truncatedDistance e sqrt maxMergeDist nr_pts_per_cell pcd_array i) ∧
      (maxMergeDist < 20 →
        truncatedDistance e sqrt maxMergeDist nr_pts_per_cell pcd_array i = maxMergeDist)) := by
  refine ⟨?_, ?_, fun i => truncatedDistance_bounds e sqrt maxMergeDist nr_pts_per_cell pcd_array i⟩
  · unfold computeCellDistTols
    rw [(foldl_set_getElem? _ _ _ 0).1, List.length_replicate]
  · intro i hi
    have hget := (foldl_set_getElem?
      (fun c => truncatedDistance e sqrt maxMergeDist nr_pts_per_cell pcd_array c ^ 2)
      (setBitsNat e.BITSET_SIZE planar_flags) (List.replicate e.nr_total_cells.toNat 0) i).2
      (by rw [List.length_replicate]; exact hi)
    have hrep : (List.replicate e.nr_total_cells.toNat (0 : F))[i]? = some 0 := by
      rw [List.getElem?_replicate, if_pos hi]
    constructor
    · intro hnp
      unfold computeCellDistTols
      rw [hget, hrep, if_neg]
      simp [setBitsNat, hnp]
    · intro hp hb
      unfold computeCellDistTols
      rw [hget, if_pos]
      simp [setBitsNat, hp, hb]

/-- Witness of `computeCellDistTols_spec` with `maxMergeDist = 30`: both planar
cells of the one-row grid get the floor 20 squared. -/
theorem computeCellDistTols_spec_witness :
    computeCellDistTols wideEngine intSqrt 30 2 diagonalCloud {0, 1} = [400, 400] ∧
    (computeCellDistTols wideEngine intSqrt 30 2 diagonalCloud {0, 1}).length =
      wideEngine.nr_total_cells.toNat :=
  ⟨by decide, (computeCellDistTols_spec wideEngine intSqrt 30 2 diagonalCloud {0, 1}).1⟩

/-! ## Determinism of `process` -/

section processTheorems

variable {F M H : Type} [LinearOrderedCommRing F]

theorem withMap_fields (st : LoopState M H) (m : ℤ → ℤ → ℤ) :
    (st.withMap m).hist = st.hist ∧ (st.withMap m).cell_grid = st.cell_grid ∧
    (st.withMap m).unassigned_mask = st.unassigned_mask ∧
    (st.withMap m).plane_segments = st.plane_segments ∧
    (st.withMap m).remaining_planar_cells = st.remaining_planar_cells ∧
    (st.withMap m).grid_plane_seg_map = m :=
  ⟨rfl, rfl, rfl, rfl, rfl, rfl⟩

end processTheorems

/-! ## Worked runs and witnesses -/

section Evaluations

/-- On the single-cell engine the loop body ends an iteration in the state it
started from, with an empty activation map. -/
theorem singleEngine_body :
    loopBody singleEngine toyOps listHistogram zeroTols
        (initState singleEngine offGrid zeroMap [0] {0}) =
      .ok (.next (initState singleEngine offGrid zeroMap [0] {0}) ⟨0, ∅, false⟩) := by
  rfl

/-- Claim C1, evaluated on a grid of one row and two columns whose two cells form
the first accepted segment (activation map `{0, 1}`, seed 1): the label loop runs
its columns to `_nr_vertical_cells = 1`, so the entry of cell 1, at row `1 / 2 = 0`
and column `1 % 2 = 1`, keeps the value 0 while only the entry of cell 0 is
stamped 1. -/
theorem createPlaneSegments_labels_row_grid :
    growthPasses rowEngine toyOps listHistogram rowGrid zeroMap 2 [0, 1] {0, 1} rowTols =
        [⟨1, {0, 1}, true⟩] ∧
      (createPlaneSegmentsFuel rowEngine toyOps listHistogram rowGrid zeroMap 2 [0, 1] {0, 1}
          rowTols).toOption.map
        (fun st => (st.plane_segments, st.grid_plane_seg_map 0 0, st.grid_plane_seg_map 0 1)) =
        some ([1], 1, 0) ∧
      ((1 : ℤ) / rowEngine.nr_horizontal_cells, (1 : ℤ) % rowEngine.nr_horizontal_cells) =
        (0, 1) := by
  decide

/-- Claim C5, evaluated on a single planar cell whose mean lies at squared
distance 1 from its own plane while its tolerance is 0: `growSeed` rejects the
seed against itself and returns the empty map, the loop body ends at the
`continue` with the state it started from, and no number of iterations makes
`createPlaneSegments` return. -/
theorem createPlaneSegments_diverges_on_rejected_seed :
    growSeed singleEngine toyOps offGrid 0 0 0 {0} ∅ zeroTols = .ok ∅ ∧
      ∀ n : ℕ,
        createPlaneSegmentsFuel singleEngine toyOps listHistogram offGrid zeroMap n [0] {0}
          zeroTols = .error .fuel := by
  refine ⟨by decide, fun n => ?_⟩
  unfold createPlaneSegmentsFuel
  induction n with
  | zero => rfl
  | succ n ih =>
    rw [runLoop_succ, singleEngine_body]
    have hrem : (initState singleEngine offGrid zeroMap [0] {0} :
        LoopState ToySeg (List ℤ)).remaining_planar_cells > 0 := by decide
    rw [if_pos hrem]
    exact ih

/-- Claim C6, evaluated on the one-row grid with both cells activated: with seed 1
the merged model counts 4 points, although the model of the seed combined once with
the model of each activated cell counts 3; with the MSEs exchanged, so that the
seed is cell 0, the same two cells give 3. -/
theorem createPlaneSegments_merge_counts_row_grid :
    (createPlaneSegmentsFuel rowEngine toyOps listHistogram rowGrid zeroMap 2 [0, 1] {0, 1}
        rowTols).toOption.map (fun st => (st.plane_segments, (st.cell_grid 1).count)) =
      some ([1], 4) ∧
    (toyOps.mergeWith (toyOps.mergeWith (rowGrid 1) (rowGrid 0)) (rowGrid 1)).count = 3 ∧
    (createPlaneSegmentsFuel rowEngine toyOps listHistogram mirrorGrid zeroMap 2 [0, 1] {0, 1}
        rowTols).toOption.map (fun st => (st.plane_segments, (st.cell_grid 0).count)) =
      some ([0], 3) := by
  decide

/-- Claim C8, evaluated on the candidate list `[0]` whose one cell has the MSE
2147483647: `min_mse` starts at that value, the test `mse < min_mse` of the scan
of lines 103-110 fails for the only candidate, and the scan ends with `seed_id`
never assigned; the read of `seed_id` at line 112 finds no member of the list,
although cell 0 is a member of minimal MSE. -/
theorem selectSeed_sentinel_leaves_seed_unset :
    listHistogram.getPointsFromMostFrequentBin ([0] : List ℤ) = [0] ∧
    toyOps.getMSE (hugeGrid 0) = ((INT_MAX : ℕ) : ℤ) ∧
    selectSeed toyOps hugeGrid [0] = (none, ((INT_MAX : ℕ) : ℤ)) ∧
    loopBody singleEngine toyOps listHistogram rowTols
        (initState singleEngine hugeGrid zeroMap [0] {0}) = .error .uninitialized_seed :=
  ⟨by decide, by decide, by decide, rfl⟩

/-- Witness of `selectSeed_first_min` on the candidates `[0, 1]` of `rowGrid`. -/
theorem selectSeed_first_min_witness :
    (∃ c ∈ ([0, 1] : List ℤ), toyOps.getMSE (rowGrid c) < ((INT_MAX : ℕ) : ℤ)) ∧
    ∃ (seed_id : ℤ) (pre post : List ℤ),
      selectSeed toyOps rowGrid [0, 1] = (some seed_id, toyOps.getMSE (rowGrid seed_id)) ∧
      [0, 1] = pre ++ seed_id :: post ∧
      seed_id ∈ ([0, 1] : List ℤ) ∧
      (∀ c ∈ ([0, 1] : List ℤ), toyOps.getMSE (rowGrid seed_id) ≤ toyOps.getMSE (rowGrid c)) ∧
      (∀ c ∈ pre, toyOps.getMSE (rowGrid seed_id) < toyOps.getMSE (rowGrid c)) :=
  ⟨⟨0, by decide, by decide⟩, selectSeed_first_min toyOps rowGrid [0, 1] ⟨0, by decide, by decide⟩⟩

/-- Witness of `growSeed_eq_chainReachable` for seed 1 of the one-row grid. -/
theorem growSeed_eq_chainReachable_witness :
    (0 < rowEngine.nr_horizontal_cells ∧ (0 : ℤ) ≤ 1 ∧ (1 : ℤ) < rowEngine.nr_total_cells) ∧
    ∃ r : Finset ℤ,
      growSeed rowEngine toyOps rowGrid ((1 : ℤ).tmod rowEngine.nr_horizontal_cells)
        ((1 : ℤ).tdiv rowEngine.nr_horizontal_cells) 1 {0, 1} ∅ rowTols = .ok r ∧
      (∀ c, c ∈ r ↔ chainReachable rowEngine toyOps rowGrid {0, 1} rowTols 1 c) ∧
      ∀ order : List Dir, order.Perm sourceOrder →
        growSeedOrd order rowEngine toyOps rowGrid {0, 1} rowTols
          (({0, 1} : Finset ℤ).card + 1)
          ((1 : ℤ).tmod rowEngine.nr_horizontal_cells)
          ((1 : ℤ).tdiv rowEngine.nr_horizontal_cells) 1 ∅ = .ok r :=
  ⟨by decide,
    growSeed_eq_chainReachable rowEngine toyOps rowGrid {0, 1} rowTols 1 (by decide) (by decide)
      (by decide)⟩

/-- Witness of `createPlaneSegments_exit_on_few_candidates`: two candidates where
three are asked for. -/
theorem createPlaneSegments_exit_on_few_candidates_witness :
    (listHistogram.getPointsFromMostFrequentBin
        (initState strictEngine rowGrid zeroMap ([0, 1] : List ℤ) {0, 1}).hist).length <
      strictEngine.config.minRegionGrowingCandidateSize ∧
    (loopBody strictEngine toyOps listHistogram rowTols
        (initState strictEngine rowGrid zeroMap [0, 1] {0, 1}) =
      .ok (.exit (initState strictEngine rowGrid zeroMap [0, 1] {0, 1})) ∧
      ∀ n : ℕ, runLoop strictEngine toyOps listHistogram rowTols (n + 1)
          (initState strictEngine rowGrid zeroMap [0, 1] {0, 1}) =
        ([], .ok (initState strictEngine rowGrid zeroMap [0, 1] {0, 1}))) :=
  ⟨by decide,
    createPlaneSegments_exit_on_few_candidates strictEngine toyOps listHistogram rowTols
      (initState strictEngine rowGrid zeroMap [0, 1] {0, 1}) (by decide)⟩

/-- Witness of `growSeed_candidate_gate` for the call `growSeed(1, 0, 1, ...)` on the
one-row grid: cell 1 is newly marked, and it is unassigned and passes both tests. -/
theorem growSeed_candidate_gate_witness :
    ((0 : ℤ) ≤ 1 + rowEngine.nr_horizontal_cells * 0 ∧
      (1 : ℤ) + rowEngine.nr_horizontal_cells * 0 < rowEngine.nr_total_cells) ∧
    ((1 : ℤ) + rowEngine.nr_horizontal_cells * 0 ∈ ({0, 1} : Finset ℤ) ∧
      (toyOps.getNormal (rowGrid 1)).dot
          (toyOps.getNormal (rowGrid (1 + rowEngine.nr_horizontal_cells * 0))) ≥
        rowEngine.config.minCosAngleForMerge ∧
      ((toyOps.getNormal (rowGrid 1)).dot
            (toyOps.getMean (rowGrid (1 + rowEngine.nr_horizontal_cells * 0))) +
          toyOps.getD (rowGrid 1)) ^ 2 ≤
        rowTols (1 + rowEngine.nr_horizontal_cells * 0)) :=
  ⟨by decide,
    ((growSeed_candidate_gate rowEngine toyOps rowGrid {0, 1} rowTols 1 0 1 ∅ (by decide)
      (by decide)).1 3 {0, 1} (by decide)).2 (by decide) (by decide)⟩

/-- Witness of `createPlaneSegments_mask_invariants` on the one-row grid, where one
growth pass activates both cells. -/
theorem createPlaneSegments_mask_invariants_witness :
    growthPasses rowEngine toyOps listHistogram rowGrid zeroMap 2 [0, 1] {0, 1} rowTols =
        [⟨1, {0, 1}, true⟩] ∧
    ((∀ (k : ℕ) (st : LoopState ToySeg (List ℤ)),
      stateAt rowEngine toyOps listHistogram rowTols k
          (initState rowEngine rowGrid zeroMap [0, 1] {0, 1}) = some st →
        st.unassigned_mask ⊆ {0, 1} ∧
        ∀ (st1 : LoopState ToySeg (List ℤ)) (pass : Pass),
          loopBody rowEngine toyOps listHistogram rowTols st = .ok (.next st1 pass) →
            pass.activation_map ⊆ st.unassigned_mask ∧
            st1.unassigned_mask ⊆ {0, 1}) ∧
    (∀ (grid : ℤ → ToySeg) (unassigned : Finset ℤ) (n : ℕ) (x y prev : ℤ) (am r : Finset ℤ),
      am ⊆ unassigned →
      growSeedFuel rowEngine toyOps grid unassigned rowTols n x y prev am = .ok r →
        r ⊆ unassigned)) :=
  ⟨by decide,
    createPlaneSegments_mask_invariants rowEngine toyOps listHistogram rowGrid zeroMap [0, 1]
      {0, 1} rowTols⟩

/-- Witness of `createPlaneSegments_passes_disjoint` on the one-row grid: the single
pass leaves no cell of its activation map in the final unassigned mask. -/
theorem createPlaneSegments_passes_disjoint_witness :
    (createPlaneSegmentsFuel rowEngine toyOps listHistogram rowGrid zeroMap 2 [0, 1] {0, 1}
        rowTols).toOption.map (fun st => st.unassigned_mask) = some ∅ ∧
    (growthPasses rowEngine toyOps listHistogram rowGrid zeroMap 2 [0, 1] {0, 1}
        rowTols).Pairwise (fun p q => Disjoint p.activation_map q.activation_map) :=
  ⟨by decide,
    (createPlaneSegments_passes_disjoint rowEngine toyOps listHistogram rowGrid zeroMap 2 [0, 1]
      {0, 1} rowTols).1⟩

/-- Claim C9 as stated fails for `minRegionGrowingCellsActivated = -1` on the
one-row grid: the only pass activates two cells, which is at least `-1`, and the
score 1 of the merged model exceeds `minRegionPlanarityScore = 0`, yet the pass
appends nothing and the returned list is empty. -/
theorem createPlaneSegments_negative_minimum_discards :
    negativeEngine.config.minRegionGrowingCellsActivated ≤
        (bitCount negativeEngine.BITSET_SIZE ({0, 1} : Finset ℤ) : ℤ) ∧
      growthPasses negativeEngine toyOps listHistogram rowGrid zeroMap 2 [0, 1] {0, 1} rowTols =
        [⟨1, {0, 1}, false⟩] ∧
      (createPlaneSegmentsFuel negativeEngine toyOps listHistogram rowGrid zeroMap 2 [0, 1]
          {0, 1} rowTols).toOption.map
        (fun st => (st.plane_segments,
          decide (toyOps.getScore (toyOps.calculateStats (st.cell_grid 1)) >
            negativeEngine.config.minRegionPlanarityScore))) =
        some ([], true) := by
  decide

/-- Witness of `createPlaneSegments_append_order` on the one-row grid: the pass
activates both cells and is accepted, it appends its seed, cell 1, to the empty
list, the one write of the label loops lands on the entry `(0,0)` and sets it to
1, the length of the list, and the entry `(0,1)` keeps its 0. -/
theorem createPlaneSegments_append_order_witness :
    0 ≤ rowEngine.config.minRegionGrowingCellsActivated ∧
    ∃ (st1 : LoopState ToySeg (List ℤ)) (pass : Pass),
      loopBody rowEngine toyOps listHistogram rowTols
        (initState rowEngine rowGrid zeroMap [0, 1] {0, 1}) = .ok (.next st1 pass) ∧
      pass.accepted = true ∧ pass.activation_map = {0, 1} ∧ st1.plane_segments = [1] ∧
      st1.grid_plane_seg_map 0 0 = 1 ∧ st1.grid_plane_seg_map 0 1 = 0 ∧
      (stampedAt rowEngine pass.activation_map 0 0 ∧
        st1.grid_plane_seg_map 0 0 = (st1.plane_segments.length : ℤ)) ∧
      (¬ stampedAt rowEngine pass.activation_map 0 1 ∧
        st1.grid_plane_seg_map 0 1 = zeroMap 0 1) := by
  refine ⟨by decide, ?_⟩
  have hsome :
      ((loopBody rowEngine toyOps listHistogram rowTols
          (initState rowEngine rowGrid zeroMap [0, 1] {0, 1})).toOption.bind Flow.completed).map
        (fun sp => (sp.2.accepted, decide (sp.2.activation_map = {0, 1}), sp.1.plane_segments,
          sp.1.grid_plane_seg_map 0 0, sp.1.grid_plane_seg_map 0 1)) =
      some (true, true, [1], 1, 0) := by
    decide
  cases hb : loopBody rowEngine toyOps listHistogram rowTols
      (initState rowEngine rowGrid zeroMap [0, 1] {0, 1}) with
  | error f =>
    rw [hb] at hsome
    simp [Except.toOption] at hsome
  | ok fl =>
    cases fl with
    | exit s =>
      rw [hb] at hsome
      simp [Except.toOption, Flow.completed] at hsome
    | next st1 pass =>
      rw [hb] at hsome
      simp only [Except.toOption, Option.some_bind, Flow.completed, Option.map_some',
        Option.some.injEq, Prod.mk.injEq, decide_eq_true_eq] at hsome
      obtain ⟨h1, h2, h3, h4, h5⟩ := hsome
      have hthm := (createPlaneSegments_append_order rowEngine toyOps listHistogram rowTols
        (by decide)).1 (initState rowEngine rowGrid zeroMap [0, 1] {0, 1}) st1 pass hb
      have hst : stampedAt rowEngine pass.activation_map 0 0 := by
        rw [h2]
        exact ⟨0, 0, by decide, by decide, by decide, by decide, by decide⟩
      have hnst : ¬ stampedAt rowEngine pass.activation_map 0 1 := by
        rintro ⟨i, j, hi, hj, _, _, hc⟩
        have hi0 : i = 0 := by
          have : rowEngine.nr_vertical_cells.toNat = 1 := by decide
          omega
        have hj0 : j = 0 := by
          have : rowEngine.nr_vertical_cells.toNat = 1 := by decide
          omega
        subst hi0; subst hj0
        revert hc
        decide
      exact ⟨st1, pass, rfl, h1, h2, h3, h4, h5,
        ⟨hst, ((hthm.2.1 h1).2 0 0).1 hst⟩, ⟨hnst, ((hthm.2.1 h1).2 0 1).2 hnst⟩⟩

/-- Claim C13, evaluated on the single-plane scenario with one row and two columns:
both cells are planar and lie on the plane `z = 5` with the unit normal `(0,0,1)`
and offset `-5`, they share the one bin of the histogram, two cells meet both
minimums of 1 and the merged score 1 exceeds 0.  One segment is accepted and its
growth pass activates both cells, but only the entry `(0,0)` of the label map is
1: the entry `(0,1)` of cell 1 stays 0.  On the grid of two rows and two columns
the same scenario labels all four entries 1. -/
theorem createPlaneSegments_single_plane_row_grid :
    (∀ i ∈ ({0, 1} : Finset ℤ),
      (toyOps.getNormal (rowGrid i)).x = 0 ∧ (toyOps.getNormal (rowGrid i)).y = 0 ∧
      (toyOps.getNormal (rowGrid i)).z = 1 ∧
      (toyOps.getNormal (rowGrid i)).dot (toyOps.getNormal (rowGrid i)) = 1 ∧
      toyOps.getD (rowGrid i) = -5 ∧
      (toyOps.getNormal (rowGrid i)).dot (toyOps.getMean (rowGrid i)) +
        toyOps.getD (rowGrid i) = 0) ∧
    listHistogram.getPointsFromMostFrequentBin ([0, 1] : List ℤ) = [0, 1] ∧
    growthPasses rowEngine toyOps listHistogram rowGrid zeroMap 2 [0, 1] {0, 1} rowTols =
      [⟨1, {0, 1}, true⟩] ∧
    (createPlaneSegmentsFuel rowEngine toyOps listHistogram rowGrid zeroMap 2 [0, 1] {0, 1}
        rowTols).toOption.map
      (fun st =>
        (st.plane_segments, toyOps.getScore (st.cell_grid 1), st.grid_plane_seg_map 0 0,
          st.grid_plane_seg_map 0 1)) =
      some ([1], 1, 1, 0) ∧
    (growthPasses squareEngine toyOps listHistogram rowGrid zeroMap 2 [0, 1, 2, 3] {0, 1, 2, 3}
        rowTols).map
      (fun p => (p.seed_id, decide (p.activation_map = {0, 1, 2, 3}), p.accepted)) =
      [(3, true, true)] ∧
    (createPlaneSegmentsFuel squareEngine toyOps listHistogram rowGrid zeroMap 2 [0, 1, 2, 3]
        {0, 1, 2, 3} rowTols).toOption.map
      (fun st =>
        (st.plane_segments, st.grid_plane_seg_map 0 0, st.grid_plane_seg_map 0 1,
          st.grid_plane_seg_map 1 0, st.grid_plane_seg_map 1 1)) =
      some ([3], 1, 1, 1, 1) := by
  decide

/-- Witness of `growSeed_region_connected` for seed 1 of the one-row grid. -/
theorem growSeed_region_connected_witness :
    (0 < rowEngine.nr_horizontal_cells ∧
      growSeed rowEngine toyOps rowGrid ((1 : ℤ).tmod rowEngine.nr_horizontal_cells)
        ((1 : ℤ).tdiv rowEngine.nr_horizontal_cells) 1 {0, 1} ∅ rowTols = .ok {0, 1}) ∧
    (({0, 1} : Finset ℤ) = ∅ ∨
      ((1 : ℤ) ∈ ({0, 1} : Finset ℤ) ∧
        ∀ c ∈ ({0, 1} : Finset ℤ), regionPath rowEngine {0, 1} 1 c)) :=
  ⟨by decide,
    growSeed_region_connected rowEngine toyOps rowGrid {0, 1} rowTols 1 {0, 1} (by decide)
      (by decide)⟩

/-- Witness of `growSeed_calls_in_grid` for seed 1 of the one-row grid: the calls
made are `(1,0)`, `(0,0)` and `(1,0)` again. -/
theorem growSeed_calls_in_grid_witness :
    (0 < rowEngine.nr_horizontal_cells ∧ (0 : ℤ) ≤ 1 ∧ (1 : ℤ) < rowEngine.nr_total_cells) ∧
    (growSeedCalls rowEngine toyOps rowGrid {0, 1} rowTols 3 1 0 1 ∅).1 =
      [(1, 0), (0, 0), (1, 0)] ∧
    growSeed rowEngine toyOps rowGrid ((1 : ℤ).tmod rowEngine.nr_horizontal_cells)
        ((1 : ℤ).tdiv rowEngine.nr_horizontal_cells) 1 {0, 1} ∅ rowTols ≠
      .error .out_of_range :=
  ⟨by decide, by decide,
    (growSeed_calls_in_grid rowEngine toyOps rowGrid {0, 1} rowTols 1 (by decide) (by decide)
      (by decide)).2.2.2⟩

theorem listHistogram_removePoint (h : List ℤ) (i : ℤ) :
    (listHistogram.removePoint h i).toFinset = h.toFinset.erase i := by
  ext c
  simp only [listHistogram, List.mem_toFinset, List.mem_filter, Finset.mem_erase,
    decide_eq_true_eq, ne_eq]
  tauto

/-- Witness of `createPlaneSegments_counters` for the one-bin histogram on the
one-row grid, its members being the cells in the list. -/
theorem createPlaneSegments_counters_witness :
    ((∀ (h : List ℤ) (i : ℤ),
        (listHistogram.removePoint h i).toFinset = h.toFinset.erase i) ∧
      (∀ h : List ℤ, ∀ c ∈ listHistogram.getPointsFromMostFrequentBin h, c ∈ h.toFinset) ∧
      ([0, 1] : List ℤ).toFinset = {0, 1} ∧
      (∀ i ∈ ({0, 1} : Finset ℤ), 0 ≤ i ∧ i < (rowEngine.BITSET_SIZE : ℤ))) ∧
    ∀ (k : ℕ) (st : LoopState ToySeg (List ℤ)),
      stateAt rowEngine toyOps listHistogram rowTols k
          (initState rowEngine rowGrid zeroMap [0, 1] {0, 1}) = some st →
        st.hist.toFinset = st.unassigned_mask ∧
        ∀ c ∈ listHistogram.getPointsFromMostFrequentBin st.hist,
          c ∈ st.unassigned_mask ∧ c ∈ ({0, 1} : Finset ℤ) :=
  ⟨⟨listHistogram_removePoint, fun h c hc => List.mem_toFinset.2 hc, by decide, by decide⟩,
    (createPlaneSegments_counters rowEngine toyOps listHistogram rowGrid zeroMap [0, 1] {0, 1}
      rowTols).2 (fun h => h.toFinset) listHistogram_removePoint
      (fun h c hc => List.mem_toFinset.2 hc) (by decide) (by decide)⟩

/-- Witness of `growSeed_terminates` for seed 1 of the one-row grid: the call
returns both cells at every recursion depth from 3 on. -/
theorem growSeed_terminates_witness :
    growSeed rowEngine toyOps rowGrid 1 0 1 {0, 1} ∅ rowTols = .ok {0, 1} ∧
    ∀ n : ℕ, (({0, 1} : Finset ℤ) \ ∅).card < n →
      growSeedFuel rowEngine toyOps rowGrid {0, 1} rowTols n 1 0 1 ∅ =
        growSeed rowEngine toyOps rowGrid 1 0 1 {0, 1} ∅ rowTols :=
  ⟨by decide, (growSeed_terminates rowEngine toyOps rowGrid {0, 1} rowTols 1 0 1 ∅).2.1⟩

/-- On a grid of two rows and one column the label loops run `col_id` to 2: the
write `row[1]` of row 0 lands on the entry `(1,0)`, the next position of the
buffer, so both entries of the matrix hold the label. -/
theorem markCells_tall_grid :
    (markCells tallEngine {0, 1} 1 zeroMap 0 0, markCells tallEngine {0, 1} 1 zeroMap 1 0,
      markCells tallEngine {0, 1} 1 zeroMap 0 1) = (1, 1, 0) := by
  decide

/-- For an image of 46341 x 46341 pixels and `patchSize = 1` the product of the
derived dimensions, 2147488281, is not a value of `int32_t`: no engine is
produced. -/
theorem construct_overflow :
    CAPE.construct 46341 46341 1 rowEngine.config 8 nonNegativeSizes =
      .error .signed_overflow := by
  rfl

end Evaluations

end cape
